import Mathlib

/-!
# Attendance Reconciliation & Aggregation Engine — verification

A shallow embedding of the attendance-processing effect of
`src/app/admin/index.tsx` (the `useEffect` at lines 151–298 of
`AdminDashboard`), together with proofs and refutations of the
specification's claims about it.

Modelling conventions:
* JavaScript `Number` values are modelled as exact rationals (`ℚ`) for the
  hour/average computations and as `Int` for millisecond timestamps and
  minute counts (all integral in the source).
* `new Date(ts).getTime()` is modelled as `Option Int`: `none` stands for
  `NaN` (an unparseable timestamp).  `new Date(ts).toLocaleDateString()` is
  the string `"Invalid Date"` for an unparseable timestamp and an abstract,
  input-supplied locale string otherwise.
* JavaScript's stable `Array.prototype.sort(cmp)` is modelled by
  `List.mergeSort` with the boolean relation "`cmp a b ≤ 0`"; per the
  ECMAScript `SortCompare` clause, a `NaN` comparator result is treated
  as `+0` (the pair may keep its relative order).
* `arr.splice(arr.indexOf(x), 1)` where `x` was obtained by
  `arr.find(p)` removes the first element satisfying `p`, i.e.
  `List.eraseP`.
* The effect's output (three `setState` calls) is modelled as a
  `DashboardState` record; the guard `attendanceRecords.length > 0 &&
  users.length > 0` leaves the previous state unchanged.
* The final display sort of `processed` (lines 276–284) permutes the
  session list for rendering only; no property below depends on the
  display order, and the session list is exposed in production (push)
  order.
-/

namespace GeoAttendance

/-- A raw punch event (`AttendanceRecord` in `../types`), as consumed by the
effect: a document id, the punching user, the punch `type`
(`'check-in'` / `'check-out'`), and the timestamp — represented by the two
projections the code extracts from it: `new Date(timestamp).getTime()`
(`none` models `NaN`) and `new Date(timestamp).toLocaleDateString()`
(meaningful only when the time is valid). -/
structure AttendanceRecord where
  id : Nat
  userId : String
  type : String
  time : Option Int
  localeDate : String
deriving DecidableEq, Repr

/-- A roster entry (`User` in `../types`): the fields the effect reads.
`name` and `email` may be absent (`undefined`). -/
structure User where
  id : String
  name : Option String
  email : Option String
  checkedIn : Bool
deriving DecidableEq, Repr

/-- `new Date(record.timestamp).toLocaleDateString()` (line 158): renders
`"Invalid Date"` when the timestamp does not parse. -/
def recordDate (r : AttendanceRecord) : String :=
  match r.time with
  | none => "Invalid Date"
  | some _ => r.localeDate

/-- A valid `Date` never renders as the string `"Invalid Date"`: buckets are
therefore homogeneous (all-valid or all-invalid timestamps). -/
def WellFormedDates (records : List AttendanceRecord) : Prop :=
  ∀ r ∈ records, r.time.isSome → r.localeDate ≠ "Invalid Date"

/-- `new Date(r.timestamp).getTime() > new Date(record.timestamp).getTime()`
(lines 199–200).  Any comparison involving `NaN` is `false`. -/
def gtTime : Option Int → Option Int → Bool
  | some a, some b => a > b
  | _, _ => false

/-- The in-bucket sort comparator (lines 187–189):
`(a, b) => new Date(a.timestamp).getTime() - new Date(b.timestamp).getTime()`.
`timeLe a b` means "the comparator result is ≤ 0, so `a` may stay before
`b`"; per ECMAScript `SortCompare` a `NaN` result counts as `+0`. -/
def timeLe (a b : AttendanceRecord) : Bool :=
  match a.time, b.time with
  | some x, some y => x ≤ y
  | _, _ => true

/-- `dayRecords.sort((a, b) => getTime(a) - getTime(b))`: a stable sort by
the comparator. -/
def jsSortByTime (l : List AttendanceRecord) : List AttendanceRecord :=
  l.mergeSort timeLe

/-- `Math.round(durationMs / (1000 * 60))` (line 217).  For an integer
`durationMs`, `Math.round x = ⌊x + 1/2⌋`, and
`⌊durationMs/60000 + 1/2⌋ = ⌊(durationMs + 30000) / 60000⌋`. -/
def jsRoundMinutes (durationMs : Int) : Int :=
  Int.fdiv (durationMs + 30000) 60000

/-- `user.name || 'Unknown'`: JavaScript `||` falls through on every falsy
value, so both a missing name and the empty string yield the default. -/
def jsOrElse : Option String → String → String
  | some s, d => if s = "" then d else s
  | none, d => d

/-- A reconciled session row (`ProcessedAttendanceRecord` in `../types`),
as pushed at lines 203–210 / 244–251; `duration` is set at line 219 only
when both endpoints are present. -/
structure ProcessedAttendanceRecord where
  userId : String
  userName : String
  userEmail : String
  date : String
  checkIn : Option AttendanceRecord
  checkOut : Option AttendanceRecord
  duration : Option Int
deriving DecidableEq, Repr

/-- The predicate of `dayRecords.find(...)` at lines 198–201: a check-out
strictly after the given check-in time. -/
def checkOutMatch (t : Option Int) (x : AttendanceRecord) : Bool :=
  x.type == "check-out" && gtTime x.time t

/-- The session entry built at lines 203–226 for a check-in `ci` and its
(optional) matched check-out.  The `(_, _) => none` duration fallback is
unreachable: a match requires both timestamps valid (`gtTime`). -/
def mkEntry (user : User) (uid date : String) (ci : AttendanceRecord)
    (co : Option AttendanceRecord) : ProcessedAttendanceRecord :=
  { userId := uid
    userName := jsOrElse user.name "Unknown"
    userEmail := jsOrElse user.email "Unknown"
    date := date
    checkIn := some ci
    checkOut := co
    duration :=
      match co with
      | none => none
      | some c =>
        match ci.time, c.time with
        | some tIn, some tOut => some (jsRoundMinutes (tOut - tIn))
        | _, _ => none }

/-- The orphan check-out entry pushed at lines 244–251. -/
def mkOrphan (user : User) (uid date : String) (co : AttendanceRecord) :
    ProcessedAttendanceRecord :=
  { userId := uid
    userName := jsOrElse user.name "Unknown"
    userEmail := jsOrElse user.email "Unknown"
    date := date
    checkIn := none
    checkOut := some co
    duration := none }

/-- The index-based check-in pairing loop of lines 193–238.  `arr` is the
current (mutable in the source) `dayRecords` array and `i` the loop index.
A found match is removed by `splice(indexOf(match), 1)`, i.e. the first
element satisfying the predicate is erased (`List.eraseP`); the loop then
moves to index `i + 1` of the shortened array, exactly as the source does.
Returns the emitted session entries and the final residual array (scanned
for orphan check-outs by the second loop, lines 241–253). -/
def checkInLoop (user : User) (uid date : String) :
    (arr : List AttendanceRecord) → (i : Nat) →
      List ProcessedAttendanceRecord × List AttendanceRecord
  | arr, i =>
    if h : i < arr.length then
      if arr[i].type = "check-in" then
        match hf : arr.find? (checkOutMatch arr[i].time) with
        | some co =>
          let rest := checkInLoop user uid date
            (arr.eraseP (checkOutMatch arr[i].time)) (i + 1)
          (mkEntry user uid date arr[i] (some co) :: rest.1, rest.2)
        | none =>
          let rest := checkInLoop user uid date arr (i + 1)
          (mkEntry user uid date arr[i] none :: rest.1, rest.2)
      else
        checkInLoop user uid date arr (i + 1)
    else
      ([], arr)
termination_by arr i => arr.length - i
decreasing_by
  · have hm := List.mem_of_find?_eq_some hf
    have hp := List.find?_some hf
    have := List.length_eraseP_of_mem hm hp
    omega
  · omega
  · omega

/-- One (user, day) bucket, lines 187–256: sort ascending by time, run the
check-in pairing loop, then emit residual check-outs as orphans. -/
def processDay (user : User) (uid date : String)
    (bucket : List AttendanceRecord) : List ProcessedAttendanceRecord :=
  let dayRecords := jsSortByTime bucket
  let res := checkInLoop user uid date dayRecords 0
  res.1 ++ (res.2.filter (fun r => r.type = "check-out")).map (mkOrphan user uid date)

/-- `Object.keys` of an insertion-ordered string-keyed object built by
pushing: the keys in order of first occurrence. -/
def firstKeys : List String → List String
  | [] => []
  | k :: rest => k :: firstKeys (rest.filter (fun x => x ≠ k))
termination_by l => l.length
decreasing_by
  have := List.length_filter_le (fun x => decide (x ≠ k)) rest
  simp only [List.length_cons]
  omega

/-- The minutes accumulated while emitting a list of session entries
(lines 222–225 add `durationMinutes` exactly when a duration was set). -/
def sessionsMinutes (l : List ProcessedAttendanceRecord) : Int :=
  (l.map (fun s => s.duration.getD 0)).sum

/-- Per-user statistics (`UserStats` in `../types`), lines 260–267. -/
structure UserStats where
  name : Option String
  email : Option String
  totalMinutesToday : Int
  totalHoursToday : ℚ
  totalMinutesAllTime : Int
  totalHoursAllTime : ℚ
deriving DecidableEq, Repr

/-- `Math.floor(m / 60) + (m % 60) / 60` (lines 264, 266).  `Math.floor` on
a rational is `Int.fdiv`; JavaScript `%` is the truncated remainder
(`Int.tmod`).  For the non-negative totals that occur, this equals `m / 60`
exactly. -/
def jsHours (m : Int) : ℚ :=
  (Int.fdiv m 60 : ℚ) + (Int.tmod m 60 : ℚ) / 60

/-- Sessions and statistics of a single roster user: the body of the outer
`forEach` (lines 179–273) once the user was found in the roster.
`dayResults` pairs each first-occurrence date with its processed bucket;
the minute totals accumulate per emitted session exactly as the source
adds `durationMinutes` at lines 222–225 (all-time always, today's only
when the bucket date equals `today`). -/
def processUser (user : User) (uid today : String)
    (userRecords : List AttendanceRecord) :
    List ProcessedAttendanceRecord × UserStats :=
  let dates := firstKeys (userRecords.map recordDate)
  let dayResults := dates.map (fun d =>
    (d, processDay user uid d (userRecords.filter (fun r => recordDate r = d))))
  let allMin := (dayResults.map (fun p => sessionsMinutes p.2)).sum
  let todayMin := (dayResults.map (fun p =>
    if p.1 = today then sessionsMinutes p.2 else 0)).sum
  ((dayResults.map Prod.snd).flatten,
   { name := user.name
     email := user.email
     totalMinutesToday := todayMin
     totalHoursToday := jsHours todayMin
     totalMinutesAllTime := allMin
     totalHoursAllTime := jsHours allMin })

/-- `Number(x.toFixed(1))` (line 292): the integer `n` with `n / 10`
closest to `x`, ties to the larger `n`, i.e. `⌊10 x + 1/2⌋ / 10`. -/
def toFixed1 (x : ℚ) : ℚ :=
  (⌊x * 10 + 1 / 2⌋ : ℚ) / 10

/-- The dashboard summary (`DashboardStats` in `../types`), lines 288–293. -/
structure DashboardStats where
  totalUsers : Nat
  checkedInUsers : Nat
  todayAttendance : Nat
  avgHoursToday : ℚ
deriving DecidableEq, Repr

/-- Everything the effect computes on a non-empty input. -/
structure EngineResult where
  processed : List ProcessedAttendanceRecord
  stats : List (String × UserStats)
  dashboard : DashboardStats
deriving DecidableEq, Repr

/-- The whole reconciliation/aggregation computation of lines 153–293,
as a function of the raw records, the roster, and `today` (the value of
`new Date().toLocaleDateString()` read at line 177).

* grouping by `(userId, date)` with insertion-ordered keys is realised by
  filtering the input per first-occurrence key (the nested push at lines
  156–169 produces exactly the filtered sublists, in input order);
* users absent from the roster are skipped wholesale (line 181);
* the `avgHoursToday` accumulators (lines 269–272) sum `m / 60` over the
  users whose today-minutes are positive. -/
def perUserData (attendanceRecords : List AttendanceRecord)
    (users : List User) (today : String) :
    List (String × (List ProcessedAttendanceRecord × UserStats)) :=
  (firstKeys (attendanceRecords.map (fun r => r.userId))).filterMap (fun uid =>
    match users.find? (fun u => u.id == uid) with
    | none => none
    | some user =>
      some (uid, processUser user uid today
        (attendanceRecords.filter (fun r => r.userId = uid))))

/-- The `processed` array in push order (line 256). -/
def processedSessions (attendanceRecords : List AttendanceRecord)
    (users : List User) (today : String) : List ProcessedAttendanceRecord :=
  ((perUserData attendanceRecords users today).map (fun p => p.2.1)).flatten

/-- The users counted by `usersWithHoursToday` (lines 269–272). -/
def activeUsers (attendanceRecords : List AttendanceRecord)
    (users : List User) (today : String) :
    List (String × (List ProcessedAttendanceRecord × UserStats)) :=
  (perUserData attendanceRecords users today).filter
    (fun p => 0 < p.2.2.totalMinutesToday)

def processAttendance (attendanceRecords : List AttendanceRecord)
    (users : List User) (today : String) : EngineResult :=
  let perUser := perUserData attendanceRecords users today
  let processed := processedSessions attendanceRecords users today
  let active := activeUsers attendanceRecords users today
  let totalHoursToday : ℚ :=
    (active.map (fun p => (p.2.2.totalMinutesToday : ℚ) / 60)).sum
  let todayRecords := processed.filter (fun s => s.date = today)
  { processed := processed
    stats := perUser.map (fun p => (p.1, p.2.2))
    dashboard :=
      { totalUsers := users.length
        checkedInUsers := (users.filter (fun u => u.checkedIn)).length
        todayAttendance :=
          if 0 < todayRecords.length
          then ((todayRecords.map (fun s => s.userId)).dedup).length
          else 0
        avgHoursToday :=
          if 0 < active.length
          then toFixed1 (totalHoursToday / (active.length : ℚ))
          else 0 } }

/-! ## Specification-side pairing (for the refinement claim C1)

The following definitions follow the words of §4.2 of the specification —
"search the *remaining* events for the **earliest** `CheckOut` whose
timestamp is strictly greater than this check-in's timestamp; if two
check-outs have the identical timestamp, the one encountered first in the
scan (stable original order) is preferred" — and are compared with the
source-derived `checkInLoop` above. -/

/-- Spec §4.2: a candidate match for a check-in at time `t` is a `CheckOut`
whose timestamp is strictly greater than `t`. -/
def specCandidate (t : Option Int) (r : AttendanceRecord) : Bool :=
  r.type == "check-out" &&
    match t, r.time with
    | some a, some b => a < b
    | _, _ => false

/-- Strictly earlier timestamp. -/
def ltTime : Option Int → Option Int → Bool
  | some a, some b => a < b
  | _, _ => false

/-- Spec §4.2: among the remaining events, the candidate check-out with the
**earliest** timestamp; on identical timestamps the one first in the list
order is preferred. -/
def specFindCheckOut (t : Option Int) : List AttendanceRecord → Option AttendanceRecord
  | [] => none
  | r :: rest =>
    let best := specFindCheckOut t rest
    if specCandidate t r then
      match best with
      | none => some r
      | some b => if ltTime b.time r.time then some b else some r
    else best

/-- Spec §4.2, step 1: scan the day's events in timestamp order; each
not-yet-consumed check-in takes the earliest available later check-out,
which is then removed from further consideration; a check-in with no such
check-out yields an open session. -/
def specPairLoop (user : User) (uid date : String) :
    (arr : List AttendanceRecord) → (i : Nat) →
      List ProcessedAttendanceRecord × List AttendanceRecord
  | arr, i =>
    if h : i < arr.length then
      if arr[i].type = "check-in" then
        match specFindCheckOut arr[i].time arr with
        | some co =>
          let rest := specPairLoop user uid date (arr.erase co) (i + 1)
          (mkEntry user uid date arr[i] (some co) :: rest.1, rest.2)
        | none =>
          let rest := specPairLoop user uid date arr (i + 1)
          (mkEntry user uid date arr[i] none :: rest.1, rest.2)
      else
        specPairLoop user uid date arr (i + 1)
    else
      ([], arr)
termination_by arr i => arr.length - i
decreasing_by
  · have := List.length_erase_le co arr
    omega
  · omega
  · omega

/-- The component state the effect writes (initialised at lines 77–84). -/
structure DashboardState where
  processedAttendance : List ProcessedAttendanceRecord
  userStats : List (String × UserStats)
  dashboardStats : DashboardStats
deriving DecidableEq, Repr

/-- The initial component state (lines 77–84). -/
def initialDashboardState : DashboardState :=
  { processedAttendance := []
    userStats := []
    dashboardStats :=
      { totalUsers := 0, checkedInUsers := 0, todayAttendance := 0, avgHoursToday := 0 } }

/-- The effect of lines 151–298 as a state transformer: it recomputes only
under the guard `attendanceRecords.length > 0 && users.length > 0`
(line 152) and otherwise leaves the previous state untouched.  `nowDate`
is the wall-clock value `new Date().toLocaleDateString()` read internally
at line 177. -/
def attendanceEffect (attendanceRecords : List AttendanceRecord)
    (users : List User) (nowDate : String) (prev : DashboardState) :
    DashboardState :=
  if 0 < attendanceRecords.length ∧ 0 < users.length then
    let r := processAttendance attendanceRecords users nowDate
    { processedAttendance := r.processed
      userStats := r.stats
      dashboardStats := r.dashboard }
  else prev

/-- Spec §4.2 steps 1–2 assembled per day bucket, mirroring `processDay`:
the ordered sequence is scanned by the greedy earliest-available-match
loop, then the unconsumed check-outs are emitted as orphan sessions. -/
def specProcessDay (user : User) (uid date : String)
    (bucket : List AttendanceRecord) : List ProcessedAttendanceRecord :=
  let dayRecords := jsSortByTime bucket
  let res := specPairLoop user uid date dayRecords 0
  res.1 ++ (res.2.filter (fun r => r.type = "check-out")).map (mkOrphan user uid date)

/-- `users.find(u => u.id === userId)` succeeds: the event's user is on the
roster (line 180–181). -/
def rosterHas (users : List User) (uid : String) : Bool :=
  (users.find? (fun u => u.id == uid)).isSome

/-- Every record of the list has a parseable timestamp. -/
def AllValid (l : List AttendanceRecord) : Prop := ∀ r ∈ l, r.time.isSome

/-- The comparator under which valid records are actually ordered: compare
the (present) timestamps. -/
def vle (a b : AttendanceRecord) : Bool :=
  a.time.getD 0 ≤ b.time.getD 0

/-! ## Concrete sample data (used by witnesses, counterexamples and
scenario checks) -/

def aliceU : User := { id := "u1", name := some "Alice", email := some "alice@x", checkedIn := true }

def bobU : User := { id := "u2", name := some "Bob", email := some "bob@x", checkedIn := false }

def carolU : User := { id := "u3", name := some "Carol", email := some "carol@x", checkedIn := false }

/-- A check-in for `u1` at epoch-offset 0 ms on local date `3/1/2025`. -/
def ciMorning : AttendanceRecord :=
  { id := 1, userId := "u1", type := "check-in", time := some 0, localeDate := "3/1/2025" }

/-- A check-out for `u1` 8 hours (28 800 000 ms) later, same local date. -/
def coEvening : AttendanceRecord :=
  { id := 2, userId := "u1", type := "check-out", time := some 28800000, localeDate := "3/1/2025" }

/-- A check-out for `u1` only 25 seconds after `ciMorning`, same date. -/
def coQuick : AttendanceRecord :=
  { id := 3, userId := "u1", type := "check-out", time := some 25000, localeDate := "3/1/2025" }

/-- A check-out for `u1` 120 minutes (7 200 000 ms) after `ciMorning`. -/
def coNoon : AttendanceRecord :=
  { id := 8, userId := "u1", type := "check-out", time := some 7200000, localeDate := "3/1/2025" }

/-- A check-in at 23:50 of local day `3/1/2025`. -/
def ciNight : AttendanceRecord :=
  { id := 4, userId := "u1", type := "check-in", time := some 85800000, localeDate := "3/1/2025" }

/-- A check-out at 00:10 of the next local day, 20 minutes later. -/
def coPastMidnight : AttendanceRecord :=
  { id := 5, userId := "u1", type := "check-out", time := some 87000000, localeDate := "3/2/2025" }

/-- A record whose timestamp does not parse (`getTime()` is `NaN`). -/
def badTsRecord : AttendanceRecord :=
  { id := 6, userId := "u1", type := "check-in", time := none, localeDate := "ignored" }

/-- A check-in by a user that is not on the roster. -/
def ghostCi : AttendanceRecord :=
  { id := 7, userId := "ghost", type := "check-in", time := some 0, localeDate := "3/1/2025" }

/-- A check-in by the second roster user. -/
def ciBob : AttendanceRecord :=
  { id := 9, userId := "u2", type := "check-in", time := some 0, localeDate := "3/1/2025" }

/-- A non-empty component state left over from an earlier render. -/
def staleState : DashboardState :=
  { processedAttendance := [mkOrphan aliceU "u1" "3/1/2025" coEvening]
    userStats := []
    dashboardStats :=
      { totalUsers := 99, checkedInUsers := 1, todayAttendance := 1, avgHoursToday := 0 } }

/-! ## Unfolding lemmas for the pairing loops -/

theorem checkInLoop_done {user : User} {uid date : String}
    {arr : List AttendanceRecord} {i : Nat} (h : ¬ i < arr.length) :
    checkInLoop user uid date arr i = ([], arr) := by
  rw [checkInLoop]
  simp [h]

theorem checkInLoop_skip {user : User} {uid date : String}
    {arr : List AttendanceRecord} {i : Nat} (h : i < arr.length)
    (hty : ¬ arr[i].type = "check-in") :
    checkInLoop user uid date arr i = checkInLoop user uid date arr (i + 1) := by
  rw [checkInLoop]
  simp [h, hty]

theorem checkInLoop_open {user : User} {uid date : String}
    {arr : List AttendanceRecord} {i : Nat} (h : i < arr.length)
    (hty : arr[i].type = "check-in")
    (hf : arr.find? (checkOutMatch arr[i].time) = none) :
    checkInLoop user uid date arr i =
      (mkEntry user uid date arr[i] none ::
        (checkInLoop user uid date arr (i + 1)).1,
       (checkInLoop user uid date arr (i + 1)).2) := by
  rw [checkInLoop]
  simp only [dif_pos h, if_pos hty]
  split <;> simp_all

theorem checkInLoop_found {user : User} {uid date : String}
    {arr : List AttendanceRecord} {i : Nat} (h : i < arr.length)
    (hty : arr[i].type = "check-in") {co : AttendanceRecord}
    (hf : arr.find? (checkOutMatch arr[i].time) = some co) :
    checkInLoop user uid date arr i =
      (mkEntry user uid date arr[i] (some co) ::
        (checkInLoop user uid date
          (arr.eraseP (checkOutMatch arr[i].time)) (i + 1)).1,
       (checkInLoop user uid date
          (arr.eraseP (checkOutMatch arr[i].time)) (i + 1)).2) := by
  rw [checkInLoop]
  simp only [dif_pos h, if_pos hty]
  split <;> simp_all

theorem specPairLoop_done {user : User} {uid date : String}
    {arr : List AttendanceRecord} {i : Nat} (h : ¬ i < arr.length) :
    specPairLoop user uid date arr i = ([], arr) := by
  rw [specPairLoop]
  simp [h]

theorem specPairLoop_skip {user : User} {uid date : String}
    {arr : List AttendanceRecord} {i : Nat} (h : i < arr.length)
    (hty : ¬ arr[i].type = "check-in") :
    specPairLoop user uid date arr i = specPairLoop user uid date arr (i + 1) := by
  rw [specPairLoop]
  simp [h, hty]

theorem specPairLoop_open {user : User} {uid date : String}
    {arr : List AttendanceRecord} {i : Nat} (h : i < arr.length)
    (hty : arr[i].type = "check-in")
    (hf : specFindCheckOut arr[i].time arr = none) :
    specPairLoop user uid date arr i =
      (mkEntry user uid date arr[i] none ::
        (specPairLoop user uid date arr (i + 1)).1,
       (specPairLoop user uid date arr (i + 1)).2) := by
  rw [specPairLoop]
  simp [h, hty, hf]

theorem specPairLoop_found {user : User} {uid date : String}
    {arr : List AttendanceRecord} {i : Nat} (h : i < arr.length)
    (hty : arr[i].type = "check-in") {co : AttendanceRecord}
    (hf : specFindCheckOut arr[i].time arr = some co) :
    specPairLoop user uid date arr i =
      (mkEntry user uid date arr[i] (some co) ::
        (specPairLoop user uid date (arr.erase co) (i + 1)).1,
       (specPairLoop user uid date (arr.erase co) (i + 1)).2) := by
  rw [specPairLoop]
  simp [h, hty, hf]

/-! ## Shape of the emitted session entries -/

/-- Every entry emitted by the check-in loop is `mkEntry` applied to a
check-in of the scanned array; a present check-out is an element of the
array satisfying the search predicate. -/
theorem checkInLoop_entries (user : User) (uid date : String) :
    ∀ arr i, ∀ s ∈ (checkInLoop user uid date arr i).1,
      ∃ ci, ci ∈ arr ∧ ci.type = "check-in" ∧
        (s = mkEntry user uid date ci none ∨
          ∃ co, co ∈ arr ∧ checkOutMatch ci.time co = true ∧
            s = mkEntry user uid date ci (some co)) := by
  intro arr i
  induction arr, i using checkInLoop.induct user uid date with
  | case1 arr i h hty co hf ih =>
    rw [checkInLoop_found h hty hf]
    intro s hs
    rw [List.mem_cons] at hs
    rcases hs with rfl | hs
    · exact ⟨arr[i], List.getElem_mem h, hty,
        Or.inr ⟨co, List.mem_of_find?_eq_some hf, List.find?_some hf, rfl⟩⟩
    · obtain ⟨ci, hci, hcit, hrest⟩ := ih s hs
      have hsub : (arr.eraseP (checkOutMatch arr[i].time)).Sublist arr :=
        List.eraseP_sublist arr
      refine ⟨ci, hsub.mem hci, hcit, ?_⟩
      rcases hrest with h1 | ⟨co', hco', hm', rfl⟩
      · exact Or.inl h1
      · exact Or.inr ⟨co', hsub.mem hco', hm', rfl⟩
  | case2 arr i h hty hf ih =>
    rw [checkInLoop_open h hty hf]
    intro s hs
    rw [List.mem_cons] at hs
    rcases hs with rfl | hs
    · exact ⟨arr[i], List.getElem_mem h, hty, Or.inl rfl⟩
    · exact ih s hs
  | case3 arr i h hty ih =>
    rw [checkInLoop_skip h hty]
    exact ih
  | case4 arr i h =>
    rw [checkInLoop_done h]
    intro s hs
    simp at hs

/-- `find?` / `eraseP` coherence: erasing after a successful search removes
exactly the found element (this is what `splice(indexOf(found), 1)` does). -/
theorem find?_eraseP_decomp {α : Type} {p : α → Bool} {l : List α} {a : α}
    (h : l.find? p = some a) :
    ∃ l₁ l₂, (∀ b ∈ l₁, ¬ p b) ∧ l = l₁ ++ a :: l₂ ∧ l.eraseP p = l₁ ++ l₂ := by
  rw [List.find?_eq_some] at h
  obtain ⟨hpa, l₁, l₂, rfl, hfail⟩ := h
  refine ⟨l₁, l₂, ?_, rfl, ?_⟩
  · intro b hb
    simpa using hfail b hb
  · rw [List.eraseP_append_right _ (by intro b hb; simpa using hfail b hb)]
    rw [List.eraseP_cons_of_pos hpa]

theorem mkEntry_checkOut (user : User) (uid date : String)
    (ci : AttendanceRecord) (co : Option AttendanceRecord) :
    (mkEntry user uid date ci co).checkOut = co := rfl

theorem mkEntry_checkIn (user : User) (uid date : String)
    (ci : AttendanceRecord) (co : Option AttendanceRecord) :
    (mkEntry user uid date ci co).checkIn = some ci := rfl

theorem mkEntry_date (user : User) (uid date : String)
    (ci : AttendanceRecord) (co : Option AttendanceRecord) :
    (mkEntry user uid date ci co).date = date := rfl

theorem mkOrphan_checkOut (user : User) (uid date : String)
    (co : AttendanceRecord) : (mkOrphan user uid date co).checkOut = some co := rfl

theorem mkOrphan_checkIn (user : User) (uid date : String)
    (co : AttendanceRecord) : (mkOrphan user uid date co).checkIn = none := rfl

theorem mkOrphan_date (user : User) (uid date : String)
    (co : AttendanceRecord) : (mkOrphan user uid date co).date = date := rfl

theorem mkOrphan_duration (user : User) (uid date : String)
    (co : AttendanceRecord) : (mkOrphan user uid date co).duration = none := rfl

/-- A successful search result is a check-out. -/
theorem checkOutMatch_type {t : Option Int} {co : AttendanceRecord}
    (hm : checkOutMatch t co = true) : co.type = "check-out" := by
  simp [checkOutMatch] at hm
  exact hm.1

/-- Conservation of check-outs through the pairing loop: the check-outs
handed out as matches plus the check-outs left in the residual array are a
permutation of the check-outs of the scanned array. -/
theorem checkInLoop_checkOuts_perm (user : User) (uid date : String) :
    ∀ arr i,
      ((checkInLoop user uid date arr i).1.filterMap (fun s => s.checkOut) ++
        (checkInLoop user uid date arr i).2.filter
          (fun r => r.type = "check-out")).Perm
        (arr.filter (fun r => r.type = "check-out")) := by
  intro arr i
  induction arr, i using checkInLoop.induct user uid date with
  | case1 arr i h hty co hf ih =>
    rw [checkInLoop_found h hty hf]
    have hco : co.type = "check-out" := checkOutMatch_type (List.find?_some hf)
    obtain ⟨l₁, l₂, hfail, hdecomp, herase⟩ := find?_eraseP_decomp hf
    have hperm :
        (co :: (arr.eraseP (checkOutMatch arr[i].time)).filter
          (fun r => r.type = "check-out")).Perm
          (arr.filter (fun r => r.type = "check-out")) := by
      rw [herase, hdecomp, List.filter_append, List.filter_append,
        List.filter_cons_of_pos (by simpa using hco)]
      exact List.perm_middle.symm
    simp only [List.filterMap_cons, mkEntry_checkOut, List.cons_append]
    exact (ih.cons co).trans hperm
  | case2 arr i h hty hf ih =>
    rw [checkInLoop_open h hty hf]
    simpa [List.filterMap_cons, mkEntry_checkOut] using ih
  | case3 arr i h hty ih =>
    rw [checkInLoop_skip h hty]
    exact ih
  | case4 arr i h =>
    rw [checkInLoop_done h]
    simp

/-! ## Homogeneous buckets: all-invalid and all-valid timestamps -/

/-- If the scanned check-in has an unparseable timestamp, or a record has,
the search predicate is false on that record. -/
theorem checkOutMatch_none {t : Option Int} {x : AttendanceRecord}
    (h : t = none ∨ x.time = none) : checkOutMatch t x = false := by
  rcases h with h | h <;> simp [checkOutMatch, gtTime, h]

/-- On a bucket whose records all have unparseable timestamps, the search
never succeeds: every check-in is emitted as an open session and the array
is left untouched. -/
theorem checkInLoop_all_invalid (user : User) (uid date : String) :
    ∀ arr i, (∀ r ∈ arr, r.time = none) →
      (checkInLoop user uid date arr i).1 =
        ((arr.drop i).filter (fun r => r.type = "check-in")).map
          (fun r => mkEntry user uid date r none) ∧
      (checkInLoop user uid date arr i).2 = arr := by
  intro arr i
  induction arr, i using checkInLoop.induct user uid date with
  | case1 arr i h hty co hf ih =>
    intro hinv
    exfalso
    have := List.find?_some hf
    rw [checkOutMatch_none (Or.inr (hinv co (List.mem_of_find?_eq_some hf)))] at this
    exact Bool.false_ne_true this
  | case2 arr i h hty hf ih =>
    intro hinv
    rw [checkInLoop_open h hty hf]
    obtain ⟨ih1, ih2⟩ := ih hinv
    refine ⟨?_, ih2⟩
    rw [List.drop_eq_getElem_cons h, List.filter_cons_of_pos (by simpa using hty),
      List.map_cons, ih1]
  | case3 arr i h hty ih =>
    intro hinv
    rw [checkInLoop_skip h hty]
    obtain ⟨ih1, ih2⟩ := ih hinv
    refine ⟨?_, ih2⟩
    rw [List.drop_eq_getElem_cons h, List.filter_cons_of_neg (by simpa using hty), ih1]
  | case4 arr i h =>
    intro hinv
    rw [checkInLoop_done h]
    have : arr.drop i = [] := List.drop_eq_nil_of_le (by omega)
    simp [this]

theorem timeLe_eq_vle {a b : AttendanceRecord}
    (ha : a.time.isSome) (hb : b.time.isSome) : timeLe a b = vle a b := by
  rcases hA : a.time with _ | x
  · rw [hA] at ha; simp at ha
  · rcases hB : b.time with _ | y
    · rw [hB] at hb; simp at hb
    · simp [timeLe, vle, hA, hB]

/-- On an all-valid list the source's sort coincides with sorting by the
total, transitive comparator `vle`. -/
theorem jsSortByTime_eq_of_allValid {l : List AttendanceRecord}
    (hv : AllValid l) : jsSortByTime l = l.mergeSort vle := by
  have h2 : (l.mergeSort timeLe).map id = (l.map id).mergeSort vle :=
    List.map_mergeSort
      (fun a ha b hb => by rw [timeLe_eq_vle (hv a ha) (hv b hb)]; rfl)
  simpa [jsSortByTime] using h2

theorem vle_trans : ∀ a b c : AttendanceRecord,
    vle a b = true → vle b c = true → vle a c = true := by
  intro a b c hab hbc
  simp [vle] at *
  omega

theorem vle_total : ∀ a b : AttendanceRecord, (vle a b || vle b a) = true := by
  intro a b
  simp [vle]
  omega

/-- The sorted bucket is pairwise `vle`-ordered (for all-valid buckets). -/
theorem jsSortByTime_pairwise {l : List AttendanceRecord} (hv : AllValid l) :
    (jsSortByTime l).Pairwise (fun a b => vle a b = true) := by
  rw [jsSortByTime_eq_of_allValid hv]
  exact List.sorted_mergeSort vle_trans vle_total l

theorem jsSortByTime_perm (l : List AttendanceRecord) :
    (jsSortByTime l).Perm l := List.mergeSort_perm l timeLe

theorem AllValid.sort {l : List AttendanceRecord} (hv : AllValid l) :
    AllValid (jsSortByTime l) :=
  fun r hr => hv r ((jsSortByTime_perm l).mem_iff.mp hr)

/-- In a sorted, all-valid array, no record at position `≤ i` can match the
check-in at position `i`: positions before `i` carry times `≤` the
check-in's time, and position `i` itself is the check-in. -/
theorem prefix_no_match {arr : List AttendanceRecord} (hv : AllValid arr)
    (hs : arr.Pairwise (fun a b => vle a b = true)) {i : Nat}
    (h : i < arr.length) (hty : arr[i].type = "check-in") :
    ∀ b ∈ arr.take (i + 1), checkOutMatch arr[i].time b = false := by
  intro b hb
  obtain ⟨k, hk, hbk⟩ := List.mem_iff_getElem.mp hb
  have hk' : k < i + 1 := by
    have := List.length_take (i + 1) arr
    omega
  have hkl : k < arr.length := by omega
  have hbk' : arr[k] = b := by
    rw [← hbk, List.getElem_take]
  rcases Nat.lt_or_ge k i with hki | hki
  · have hvle : vle arr[k] arr[i] = true :=
      (List.pairwise_iff_getElem.mp hs) k i hkl h hki
    obtain ⟨tk, htk⟩ := Option.isSome_iff_exists.mp (hv arr[k] (List.getElem_mem hkl))
    obtain ⟨ti, hti⟩ := Option.isSome_iff_exists.mp (hv arr[i] (List.getElem_mem h))
    rw [← hbk']
    simp only [checkOutMatch, gtTime, hti, htk]
    simp [vle, htk, hti] at hvle
    simp [hvle]
  · have hik : k = i := by omega
    subst hik
    rw [← hbk']
    simp [checkOutMatch, hty]

/-- Erasing the matched check-out does not disturb the check-ins. -/
theorem filter_checkIn_eraseP {p : AttendanceRecord → Bool}
    {l : List AttendanceRecord} {co : AttendanceRecord}
    (hf : l.find? p = some co) (hco : co.type = "check-out") :
    (l.eraseP p).filter (fun r => r.type = "check-in") =
      l.filter (fun r => r.type = "check-in") := by
  obtain ⟨l₁, l₂, hfail, hdecomp, herase⟩ := find?_eraseP_decomp hf
  rw [herase, hdecomp, List.filter_append, List.filter_append,
    List.filter_cons_of_neg (by simp [hco])]

/-- In a sorted all-valid array, the matched check-out lies strictly beyond
the scanning index, so erasure splits off the untouched prefix. -/
theorem eraseP_of_sorted {arr : List AttendanceRecord} (hv : AllValid arr)
    (hs : arr.Pairwise (fun a b => vle a b = true)) {i : Nat}
    (h : i < arr.length) (hty : arr[i].type = "check-in") {co : AttendanceRecord}
    (hf : arr.find? (checkOutMatch arr[i].time) = some co) :
    (arr.drop (i + 1)).find? (checkOutMatch arr[i].time) = some co ∧
      (arr.eraseP (checkOutMatch arr[i].time)).drop (i + 1) =
        (arr.drop (i + 1)).eraseP (checkOutMatch arr[i].time) := by
  have hpre := prefix_no_match hv hs h hty
  set p := checkOutMatch arr[i].time with hp
  have htake : (arr.take (i + 1)).find? p = none :=
    List.find?_eq_none.mpr (by intro x hx; simp [hpre x hx])
  have hsplit : arr.take (i + 1) ++ arr.drop (i + 1) = arr :=
    List.take_append_drop (i + 1) arr
  constructor
  · have hthis := hf
    rw [← hsplit, List.find?_append, htake, Option.none_or] at hthis
    exact hthis
  · have herase : arr.eraseP p =
        arr.take (i + 1) ++ (arr.drop (i + 1)).eraseP p := by
      conv_lhs => rw [← hsplit]
      exact List.eraseP_append_right _ (by intro b hb; simp [hpre b hb])
    rw [herase, List.drop_left' (by simp; omega)]

/-- On a sorted, all-valid bucket, the sessions emitted by the pairing loop
carry exactly the check-ins of the not-yet-scanned part of the array, in
order. -/
theorem checkInLoop_checkIns (user : User) (uid date : String) :
    ∀ arr i, AllValid arr → arr.Pairwise (fun a b => vle a b = true) →
      (checkInLoop user uid date arr i).1.filterMap (fun s => s.checkIn) =
        (arr.drop i).filter (fun r => r.type = "check-in") := by
  intro arr i
  induction arr, i using checkInLoop.induct user uid date with
  | case1 arr i h hty co hf ih =>
    intro hv hs
    rw [checkInLoop_found h hty hf]
    obtain ⟨hfdrop, hdrop⟩ := eraseP_of_sorted hv hs h hty hf
    have hco : co.type = "check-out" := checkOutMatch_type (List.find?_some hf)
    have hsub : (arr.eraseP (checkOutMatch arr[i].time)).Sublist arr :=
      List.eraseP_sublist arr
    have ih' := ih (fun r hr => hv r (hsub.mem hr)) (hs.sublist hsub)
    rw [List.filterMap_cons, mkEntry_checkIn]
    simp only [ih', hdrop]
    rw [filter_checkIn_eraseP hfdrop hco,
      List.drop_eq_getElem_cons h, List.filter_cons_of_pos (by simpa using hty)]
  | case2 arr i h hty hf ih =>
    intro hv hs
    rw [checkInLoop_open h hty hf]
    rw [List.filterMap_cons, mkEntry_checkIn]
    rw [ih hv hs, List.drop_eq_getElem_cons h,
      List.filter_cons_of_pos (by simpa using hty)]
  | case3 arr i h hty ih =>
    intro hv hs
    rw [checkInLoop_skip h hty]
    rw [ih hv hs, List.drop_eq_getElem_cons h,
      List.filter_cons_of_neg (by simpa using hty)]
  | case4 arr i h =>
    intro hv hs
    rw [checkInLoop_done h]
    have : arr.drop i = [] := List.drop_eq_nil_of_le (by omega)
    simp [this]

/-! ## Equivalence of the source search with the specification's
earliest-available-match selection (claim C1) -/

theorem specCandidate_eq_checkOutMatch (t : Option Int) (r : AttendanceRecord) :
    specCandidate t r = checkOutMatch t r := by
  rcases ht : t with _ | a <;> rcases hr : r.time with _ | b <;>
    simp [specCandidate, checkOutMatch, gtTime, ht, hr]

theorem specFindCheckOut_mem {t : Option Int} :
    ∀ {l : List AttendanceRecord} {co : AttendanceRecord},
      specFindCheckOut t l = some co → co ∈ l := by
  intro l
  induction l with
  | nil => intro co h; simp [specFindCheckOut] at h
  | cons r rest ih =>
    intro co h
    rw [specFindCheckOut] at h
    by_cases hc : specCandidate t r = true
    · rw [if_pos hc] at h
      rcases hb : specFindCheckOut t rest with _ | b
      · rw [hb] at h
        simp at h
        simp [h]
      · rw [hb] at h
        simp only [] at h
        by_cases hlt : ltTime b.time r.time = true
        · rw [if_pos hlt] at h
          have := ih (hb.trans (by rw [← h]))
          exact List.mem_cons_of_mem r this
        · rw [if_neg hlt] at h
          simp at h
          simp [h]
    · rw [if_neg hc] at h
      exact List.mem_cons_of_mem r (ih h)

/-- On a sorted, all-valid list, taking the first later check-out in scan
order (the source) is the same as taking the earliest-timestamped later
check-out with ties broken by scan order (the specification). -/
theorem find?_eq_specFindCheckOut (t : Option Int) :
    ∀ {l : List AttendanceRecord}, AllValid l →
      l.Pairwise (fun a b => vle a b = true) →
      l.find? (checkOutMatch t) = specFindCheckOut t l := by
  intro l
  induction l with
  | nil => intro _ _; simp [specFindCheckOut]
  | cons r rest ih =>
    intro hv hs
    rw [specFindCheckOut]
    by_cases hc : specCandidate t r = true
    · rw [if_pos hc]
      rw [List.find?_cons_of_pos _ (by rw [← specCandidate_eq_checkOutMatch]; exact hc)]
      rcases hb : specFindCheckOut t rest with _ | b
      · rfl
      · simp only []
        have hbmem : b ∈ rest := specFindCheckOut_mem hb
        have hvle : vle r b = true := (List.pairwise_cons.mp hs).1 b hbmem
        obtain ⟨tr, htr⟩ := Option.isSome_iff_exists.mp (hv r (List.mem_cons_self r rest))
        obtain ⟨tb, htb⟩ := Option.isSome_iff_exists.mp
          (hv b (List.mem_cons_of_mem r hbmem))
        have hnlt : ¬ ltTime b.time r.time = true := by
          simp [ltTime, htr, htb]
          simp [vle, htr, htb] at hvle
          omega
        rw [if_neg hnlt]
    · rw [if_neg hc]
      rw [List.find?_cons_of_neg _ (by rw [← specCandidate_eq_checkOutMatch]; exact hc)]
      exact ih (fun x hx => hv x (List.mem_cons_of_mem r hx))
        (List.pairwise_cons.mp hs).2

/-- Splicing out the element found by `find` is the same as removing that
element by identity. -/
theorem eraseP_eq_erase_of_find? {p : AttendanceRecord → Bool}
    {l : List AttendanceRecord} {co : AttendanceRecord}
    (hf : l.find? p = some co) : l.eraseP p = l.erase co := by
  obtain ⟨l₁, l₂, hfail, hdecomp, herase⟩ := find?_eraseP_decomp hf
  have hpco : p co = true := List.find?_some hf
  have hnot : co ∉ l₁ := by
    intro hmem
    exact hfail co hmem hpco
  rw [herase, hdecomp, List.erase_append_right _ hnot, List.erase_cons_head]

/-- The source pairing loop coincides with the specification's greedy
earliest-available-match loop on every sorted, all-valid day bucket. -/
theorem checkInLoop_eq_specPairLoop (user : User) (uid date : String) :
    ∀ arr i, AllValid arr → arr.Pairwise (fun a b => vle a b = true) →
      checkInLoop user uid date arr i = specPairLoop user uid date arr i := by
  intro arr i
  induction arr, i using checkInLoop.induct user uid date with
  | case1 arr i h hty co hf ih =>
    intro hv hs
    have hspec : specFindCheckOut arr[i].time arr = some co := by
      rw [← find?_eq_specFindCheckOut _ hv hs]
      exact hf
    rw [checkInLoop_found h hty hf, specPairLoop_found h hty hspec]
    have herase : arr.eraseP (checkOutMatch arr[i].time) = arr.erase co :=
      eraseP_eq_erase_of_find? hf
    have hsub : (arr.eraseP (checkOutMatch arr[i].time)).Sublist arr :=
      List.eraseP_sublist arr
    have ih' := ih (fun x hx => hv x (hsub.mem hx)) (hs.sublist hsub)
    rw [← herase, ih']
  | case2 arr i h hty hf ih =>
    intro hv hs
    have hspec : specFindCheckOut arr[i].time arr = none := by
      rw [← find?_eq_specFindCheckOut _ hv hs]
      exact hf
    rw [checkInLoop_open h hty hf, specPairLoop_open h hty hspec, ih hv hs]
  | case3 arr i h hty ih =>
    intro hv hs
    rw [checkInLoop_skip h hty, specPairLoop_skip h hty, ih hv hs]
  | case4 arr i h =>
    intro hv hs
    rw [checkInLoop_done h, specPairLoop_done h]

/-! ## Session shape and durations -/

theorem checkInLoop_leftover_sublist (user : User) (uid date : String) :
    ∀ arr i, (checkInLoop user uid date arr i).2.Sublist arr := by
  intro arr i
  induction arr, i using checkInLoop.induct user uid date with
  | case1 arr i h hty co hf ih =>
    rw [checkInLoop_found h hty hf]
    exact ih.trans (List.eraseP_sublist arr)
  | case2 arr i h hty hf ih =>
    rw [checkInLoop_open h hty hf]
    exact ih
  | case3 arr i h hty ih =>
    rw [checkInLoop_skip h hty]
    exact ih
  | case4 arr i h =>
    rw [checkInLoop_done h]

/-- Every session produced for a day bucket is either a check-in entry
(`mkEntry`, with an optional matched check-out from the bucket) or an
orphan check-out entry, built from records of the bucket. -/
theorem processDay_mem {user : User} {uid date : String}
    {bucket : List AttendanceRecord} {s : ProcessedAttendanceRecord}
    (hs : s ∈ processDay user uid date bucket) :
    (∃ ci, ci ∈ bucket ∧ ci.type = "check-in" ∧
      (s = mkEntry user uid date ci none ∨
        ∃ co, co ∈ bucket ∧ checkOutMatch ci.time co = true ∧
          s = mkEntry user uid date ci (some co))) ∨
    (∃ co, co ∈ bucket ∧ co.type = "check-out" ∧ s = mkOrphan user uid date co) := by
  unfold processDay at hs
  rw [List.mem_append] at hs
  rcases hs with hs | hs
  · obtain ⟨ci, hci, hcit, hrest⟩ := checkInLoop_entries user uid date _ 0 s hs
    have hmem : ci ∈ bucket := (jsSortByTime_perm bucket).mem_iff.mp hci
    left
    refine ⟨ci, hmem, hcit, ?_⟩
    rcases hrest with h1 | ⟨co, hco, hm, rfl⟩
    · exact Or.inl h1
    · exact Or.inr ⟨co, (jsSortByTime_perm bucket).mem_iff.mp hco, hm, rfl⟩
  · rw [List.mem_map] at hs
    obtain ⟨co, hco, rfl⟩ := hs
    rw [List.mem_filter] at hco
    right
    refine ⟨co, ?_, by simpa using hco.2, rfl⟩
    exact (jsSortByTime_perm bucket).mem_iff.mp
      ((checkInLoop_leftover_sublist user uid date _ 0).mem hco.1)

theorem jsRoundMinutes_nonneg {d : Int} (h : 0 < d) : 0 ≤ jsRoundMinutes d := by
  unfold jsRoundMinutes
  have : (0 : Int) ≤ d + 30000 := by omega
  exact Int.fdiv_nonneg this (by omega)

/-- The duration stored in a matched entry. -/
theorem mkEntry_matched_duration {user : User} {uid date : String}
    {ci co : AttendanceRecord} (hm : checkOutMatch ci.time co = true) :
    ∃ tIn tOut, ci.time = some tIn ∧ co.time = some tOut ∧ tIn < tOut ∧
      (mkEntry user uid date ci (some co)).duration =
        some (jsRoundMinutes (tOut - tIn)) := by
  simp only [checkOutMatch, Bool.and_eq_true, beq_iff_eq] at hm
  obtain ⟨-, hgt⟩ := hm
  rcases hci : ci.time with _ | tIn
  · rw [hci] at hgt; simp [gtTime] at hgt
  · rcases hco : co.time with _ | tOut
    · rw [hci, hco] at hgt; simp [gtTime] at hgt
    · rw [hci, hco] at hgt
      simp only [gtTime, decide_eq_true_eq] at hgt
      exact ⟨tIn, tOut, rfl, rfl, hgt, by simp [mkEntry, hci, hco]⟩

/-- The per-session facts of claim C2, for every session the engine can
emit: a stored duration exists iff both endpoints are present; when both
are present the check-out is strictly later and the duration is the
rounded minute difference, which is non-negative. -/
theorem processDay_sessionOK {user : User} {uid date : String}
    {bucket : List AttendanceRecord} {s : ProcessedAttendanceRecord}
    (hs : s ∈ processDay user uid date bucket) :
    (s.duration.isSome ↔ (s.checkIn.isSome ∧ s.checkOut.isSome)) ∧
    (∀ ci co, s.checkIn = some ci → s.checkOut = some co →
      ∃ tIn tOut, ci.time = some tIn ∧ co.time = some tOut ∧ tIn < tOut ∧
        s.duration = some (jsRoundMinutes (tOut - tIn))) ∧
    (∀ d, s.duration = some d → 0 ≤ d) := by
  rcases processDay_mem hs with ⟨ci, hci, hcit, h1 | ⟨co, hco, hm, rfl⟩⟩ |
      ⟨co, hco, hcot, rfl⟩
  · subst h1
    refine ⟨by simp [mkEntry], ?_, ?_⟩
    · intro ci' co' hci' hco'
      simp [mkEntry] at hco'
    · intro d hd
      simp [mkEntry] at hd
  · obtain ⟨tIn, tOut, hciT, hcoT, hlt, hdur⟩ :=
      @mkEntry_matched_duration user uid date ci co hm
    refine ⟨?_, ?_, ?_⟩
    · simp [mkEntry, hciT, hcoT]
    · intro ci' co' hci' hco'
      rw [mkEntry_checkIn] at hci'
      rw [mkEntry_checkOut] at hco'
      cases hci'
      cases hco'
      exact ⟨tIn, tOut, hciT, hcoT, hlt, hdur⟩
    · intro d hd
      rw [hdur] at hd
      cases hd
      exact jsRoundMinutes_nonneg (by omega)
  · refine ⟨by simp [mkOrphan], ?_, ?_⟩
    · intro ci' co' hci' hco'
      simp [mkOrphan] at hci'
    · intro d hd
      simp [mkOrphan] at hd

/-! ## Aggregation: keys, per-user blocks, minute totals -/

theorem mkEntry_userId (user : User) (uid date : String)
    (ci : AttendanceRecord) (co : Option AttendanceRecord) :
    (mkEntry user uid date ci co).userId = uid := rfl

theorem mkOrphan_userId (user : User) (uid date : String)
    (co : AttendanceRecord) : (mkOrphan user uid date co).userId = uid := rfl

theorem mem_firstKeys : ∀ {l : List String} {x : String},
    x ∈ firstKeys l ↔ x ∈ l := by
  intro l
  induction l using firstKeys.induct with
  | case1 => intro x; rw [firstKeys]
  | case2 k rest ih =>
    intro x
    rw [firstKeys]
    rw [List.mem_cons, List.mem_cons, ih]
    constructor
    · rintro (rfl | hx)
      · exact Or.inl rfl
      · exact Or.inr (List.mem_of_mem_filter hx)
    · rintro (rfl | hx)
      · exact Or.inl rfl
      · by_cases hxk : x = k
        · exact Or.inl hxk
        · exact Or.inr (List.mem_filter.mpr ⟨hx, by simpa using hxk⟩)

theorem firstKeys_nodup : ∀ l : List String, (firstKeys l).Nodup := by
  intro l
  induction l using firstKeys.induct with
  | case1 => rw [firstKeys]; exact List.nodup_nil
  | case2 k rest ih =>
    rw [firstKeys]
    refine List.Nodup.cons ?_ ih
    intro hmem
    have := mem_firstKeys.mp hmem
    rw [List.mem_filter] at this
    simpa using this.2

/-- Every session of a day bucket carries the bucket's user and date. -/
theorem processDay_tags {user : User} {uid date : String}
    {bucket : List AttendanceRecord} {s : ProcessedAttendanceRecord}
    (hs : s ∈ processDay user uid date bucket) :
    s.userId = uid ∧ s.date = date := by
  rcases processDay_mem hs with ⟨ci, _, _, h1 | ⟨co, _, _, rfl⟩⟩ | ⟨co, _, _, rfl⟩
  · subst h1; exact ⟨rfl, rfl⟩
  · exact ⟨rfl, rfl⟩
  · exact ⟨rfl, rfl⟩

theorem sessionsMinutes_nil : sessionsMinutes [] = 0 := rfl

theorem sessionsMinutes_append (l₁ l₂ : List ProcessedAttendanceRecord) :
    sessionsMinutes (l₁ ++ l₂) = sessionsMinutes l₁ + sessionsMinutes l₂ := by
  simp [sessionsMinutes]

theorem sessionsMinutes_nonneg {l : List ProcessedAttendanceRecord}
    (h : ∀ s ∈ l, ∀ d, s.duration = some d → 0 ≤ d) : 0 ≤ sessionsMinutes l := by
  unfold sessionsMinutes
  refine List.sum_nonneg ?_
  intro x hx
  rw [List.mem_map] at hx
  obtain ⟨s, hsl, rfl⟩ := hx
  rcases hd : s.duration with _ | d
  · simp
  · simpa using h s hsl d hd

/-- The minutes of a day bucket's sessions are non-negative. -/
theorem processDay_minutes_nonneg (user : User) (uid date : String)
    (bucket : List AttendanceRecord) :
    0 ≤ sessionsMinutes (processDay user uid date bucket) :=
  sessionsMinutes_nonneg (fun _ hs => (processDay_sessionOK hs).2.2)

/-- Restricting a tagged block list to one date keeps exactly the
matching blocks. -/
theorem sessionsMinutes_filter_date (today : String) :
    ∀ (L : List (String × List ProcessedAttendanceRecord)),
      (∀ p ∈ L, ∀ s ∈ p.2, s.date = p.1) →
      sessionsMinutes (((L.map Prod.snd).flatten).filter
          (fun s => s.date = today)) =
        (L.map (fun p => if p.1 = today then sessionsMinutes p.2 else 0)).sum := by
  intro L
  induction L with
  | nil => intro _; rfl
  | cons p L ih =>
    intro htags
    rw [List.map_cons, List.map_cons, List.flatten_cons, List.filter_append,
      sessionsMinutes_append, List.sum_cons,
      ih (fun q hq => htags q (List.mem_cons_of_mem p hq))]
    congr 1
    by_cases hd : p.1 = today
    · rw [if_pos hd]
      have : p.2.filter (fun s => s.date = today) = p.2 := by
        refine List.filter_eq_self.mpr ?_
        intro s hsmem
        simpa using (htags p (List.mem_cons_self p L) s hsmem).trans hd
      rw [this]
    · rw [if_neg hd]
      have : p.2.filter (fun s => s.date = today) = [] := by
        refine List.filter_eq_nil_iff.mpr ?_
        intro s hsmem
        have := htags p (List.mem_cons_self p L) s hsmem
        simp [this, hd]
      rw [this, sessionsMinutes_nil]

theorem sessionsMinutes_flatten (L : List (List ProcessedAttendanceRecord)) :
    sessionsMinutes L.flatten = (L.map sessionsMinutes).sum := by
  induction L with
  | nil => rfl
  | cons l L ih =>
    rw [List.flatten_cons, sessionsMinutes_append, List.map_cons, List.sum_cons, ih]

/-- The all-time total of a user's stats is the duration sum of the user's
emitted sessions. -/
theorem processUser_allTime (user : User) (uid today : String)
    (recs : List AttendanceRecord) :
    (processUser user uid today recs).2.totalMinutesAllTime =
      sessionsMinutes (processUser user uid today recs).1 := by
  unfold processUser
  simp only []
  rw [sessionsMinutes_flatten]
  simp only [List.map_map]
  rfl

/-- The today total of a user's stats is the duration sum of the user's
sessions dated `today`. -/
theorem processUser_today (user : User) (uid today : String)
    (recs : List AttendanceRecord) :
    (processUser user uid today recs).2.totalMinutesToday =
      sessionsMinutes ((processUser user uid today recs).1.filter
        (fun s => s.date = today)) := by
  unfold processUser
  simp only []
  rw [sessionsMinutes_filter_date]
  intro p hp s hsmem
  rw [List.mem_map] at hp
  obtain ⟨d, hd, rfl⟩ := hp
  exact (processDay_tags hsmem).2

theorem processUser_sessions_userId (user : User) (uid today : String)
    (recs : List AttendanceRecord) :
    ∀ s ∈ (processUser user uid today recs).1, s.userId = uid := by
  intro s hsmem
  unfold processUser at hsmem
  simp only [List.mem_flatten, List.mem_map] at hsmem
  obtain ⟨l, ⟨p, ⟨d, hd, rfl⟩, rfl⟩, hsl⟩ := hsmem
  exact (processDay_tags hsl).1

theorem processUser_minutes_nonneg (user : User) (uid today : String)
    (recs : List AttendanceRecord) :
    0 ≤ (processUser user uid today recs).2.totalMinutesToday ∧
    0 ≤ (processUser user uid today recs).2.totalMinutesAllTime := by
  constructor
  · rw [processUser_today]
    refine sessionsMinutes_nonneg ?_
    intro s hsmem
    rw [List.mem_filter] at hsmem
    unfold processUser at hsmem
    have h1 := hsmem.1
    simp only [List.mem_flatten, List.mem_map] at h1
    obtain ⟨l, ⟨p, ⟨d, hd, rfl⟩, rfl⟩, hsl⟩ := h1
    exact (processDay_sessionOK hsl).2.2
  · rw [processUser_allTime]
    refine sessionsMinutes_nonneg ?_
    intro s hsmem
    unfold processUser at hsmem
    simp only [List.mem_flatten, List.mem_map] at hsmem
    obtain ⟨l, ⟨p, ⟨d, hd, rfl⟩, rfl⟩, hsl⟩ := hsmem
    exact (processDay_sessionOK hsl).2.2

/-- The keys of the per-user data are the first-occurrence event userIds
that appear on the roster, in order. -/
theorem perUserData_keys (r : List AttendanceRecord) (u : List User)
    (t : String) :
    (perUserData r u t).map Prod.fst =
      (firstKeys (r.map (fun x => x.userId))).filter
        (fun uid => rosterHas u uid) := by
  unfold perUserData
  generalize (firstKeys (r.map fun x => x.userId)) = uids
  induction uids with
  | nil => rfl
  | cons k rest ih =>
    rw [List.filterMap_cons, List.filter_cons]
    rcases hf : u.find? (fun x => x.id == k) with _ | usr
    · rw [hf]
      simp only [rosterHas, hf, Option.isSome_none, Bool.false_eq_true,
        if_false, cond_false]
      exact ih
    · rw [hf]
      simp only [rosterHas, hf, Option.isSome_some, if_true, cond_true,
        List.map_cons]
      rw [ih]
      rfl

/-- Membership of the per-user data list. -/
theorem mem_perUserData {r : List AttendanceRecord} {u : List User}
    {t : String} {p : String × (List ProcessedAttendanceRecord × UserStats)} :
    p ∈ perUserData r u t ↔
      p.1 ∈ firstKeys (r.map (fun x => x.userId)) ∧
      ∃ user, u.find? (fun x => x.id == p.1) = some user ∧
        p.2 = processUser user p.1 t (r.filter (fun x => x.userId = p.1)) := by
  unfold perUserData
  rw [List.mem_filterMap]
  constructor
  · rintro ⟨uid, huid, hg⟩
    rcases hf : u.find? (fun x => x.id == uid) with _ | usr
    · rw [hf] at hg; exact absurd hg (by simp)
    · rw [hf] at hg
      simp only [Option.some_inj] at hg
      subst hg
      exact ⟨huid, usr, hf, rfl⟩
  · rintro ⟨hmem, user, hf, hp2⟩
    refine ⟨p.1, hmem, ?_⟩
    rw [hf]
    simp only [Option.some_inj]
    rw [← hp2]

/-- The per-user keys are pairwise distinct. -/
theorem perUserData_keys_nodup (r : List AttendanceRecord) (u : List User)
    (t : String) : ((perUserData r u t).map Prod.fst).Nodup := by
  rw [perUserData_keys]
  exact (firstKeys_nodup _).filter _

theorem perUserData_sessions_userId {r : List AttendanceRecord}
    {u : List User} {t : String}
    {p : String × (List ProcessedAttendanceRecord × UserStats)}
    (hp : p ∈ perUserData r u t) :
    ∀ s ∈ p.2.1, s.userId = p.1 := by
  obtain ⟨-, user, -, hp2⟩ := mem_perUserData.mp hp
  intro s hsmem
  rw [hp2] at hsmem
  exact processUser_sessions_userId user p.1 t _ s hsmem

/-- Extracting one user's block out of the flattened session list. -/
theorem flatten_filter_block :
    ∀ (L : List (String × (List ProcessedAttendanceRecord × UserStats)))
      (uid : String),
      (∀ p ∈ L, ∀ s ∈ p.2.1, s.userId = p.1) →
      (L.map Prod.fst).Nodup →
      ∀ q ∈ L, q.1 = uid →
        ((L.map (fun p => p.2.1)).flatten.filter
          (fun s => s.userId = uid)) = q.2.1 := by
  intro L
  induction L with
  | nil =>
    intro uid _ _ q hq
    simp at hq
  | cons p L ih =>
    intro uid htags hnodup q hq hquid
    rw [List.map_cons, List.flatten_cons, List.filter_append]
    rw [List.map_cons, List.nodup_cons] at hnodup
    rcases List.mem_cons.mp hq with rfl | hqL
    · have hhead : q.2.1.filter (fun s => s.userId = uid) = q.2.1 := by
        refine List.filter_eq_self.mpr ?_
        intro s hsmem
        simpa [hquid] using htags q (List.mem_cons_self q L) s hsmem
      have htail : ((L.map (fun p => p.2.1)).flatten.filter
          (fun s => s.userId = uid)) = [] := by
        refine List.filter_eq_nil_iff.mpr ?_
        intro s hsmem
        rw [List.mem_flatten] at hsmem
        obtain ⟨l, hl, hsl⟩ := hsmem
        rw [List.mem_map] at hl
        obtain ⟨p', hp', rfl⟩ := hl
        have hsid := htags p' (List.mem_cons_of_mem q hp') s hsl
        have hne : p'.1 ≠ uid := by
          intro heq
          apply hnodup.1
          have hin : p'.1 ∈ List.map Prod.fst L := List.mem_map_of_mem Prod.fst hp'
          rw [heq] at hin
          rw [hquid]
          exact hin
        simp [hsid, hne]
      rw [hhead, htail, List.append_nil]
    · have hne : p.1 ≠ uid := by
        intro heq
        refine hnodup.1 ?_
        rw [heq, ← hquid]
        exact List.mem_map_of_mem Prod.fst hqL
      have hhead : p.2.1.filter (fun s => s.userId = uid) = [] := by
        refine List.filter_eq_nil_iff.mpr ?_
        intro s hsmem
        have := htags p (List.mem_cons_self p L) s hsmem
        simp [this, hne]
      rw [hhead, List.nil_append]
      exact ih uid (fun p' hp' => htags p' (List.mem_cons_of_mem p hp'))
        hnodup.2 q hqL hquid

/-- The sessions of the engine output carrying a given stats key are
exactly that user's session block. -/
theorem processedSessions_filter_uid {r : List AttendanceRecord}
    {u : List User} {t : String}
    {q : String × (List ProcessedAttendanceRecord × UserStats)}
    (hq : q ∈ perUserData r u t) :
    (processedSessions r u t).filter (fun s => s.userId = q.1) = q.2.1 := by
  unfold processedSessions
  exact flatten_filter_block (perUserData r u t) q.1
    (fun p hp => perUserData_sessions_userId hp)
    (perUserData_keys_nodup r u t) q hq rfl

/-- Every emitted session belongs to some roster user's day bucket. -/
theorem processedSessions_mem {r : List AttendanceRecord} {u : List User}
    {t : String} {s : ProcessedAttendanceRecord}
    (hs : s ∈ processedSessions r u t) :
    ∃ user uid d, s ∈ processDay user uid d
      ((r.filter (fun x => x.userId = uid)).filter
        (fun x => recordDate x = d)) := by
  unfold processedSessions at hs
  rw [List.mem_flatten] at hs
  obtain ⟨l, hl, hsl⟩ := hs
  rw [List.mem_map] at hl
  obtain ⟨p, hp, rfl⟩ := hl
  obtain ⟨-, user, -, hp2⟩ := mem_perUserData.mp hp
  rw [hp2] at hsl
  unfold processUser at hsl
  simp only [List.mem_flatten, List.mem_map] at hsl
  obtain ⟨l, ⟨p', ⟨d, hd, rfl⟩, rfl⟩, hsl⟩ := hsl
  exact ⟨user, p.1, d, hsl⟩

/-- The code's millisecond-based `Math.round(ms / 60000)` is exactly the
specification's "round((checkOut − checkIn) in seconds / 60)", with
`Math.round x = ⌊x + 1/2⌋`. -/
theorem jsRoundMinutes_eq_round_seconds (d : Int) :
    jsRoundMinutes d = ⌊((d : ℚ) / 1000) / 60 + 1 / 2⌋ := by
  have h1 : ((d : ℚ) / 1000) / 60 + 1 / 2 = ((d + 30000 : Int) : ℚ) / ((60000 : Nat) : ℚ) := by
    push_cast
    ring
  rw [h1, Rat.floor_intCast_div_natCast]
  rw [jsRoundMinutes, Int.fdiv_eq_ediv _ (by norm_num)]
  norm_num

/-- `Math.floor(m/60) + (m%60)/60` is exactly `m / 60` for the
non-negative minute totals the engine produces. -/
theorem jsHours_eq {m : Int} (hm : 0 ≤ m) : jsHours m = (m : ℚ) / 60 := by
  unfold jsHours
  rw [Int.fdiv_eq_ediv _ (by norm_num), Int.tmod_eq_emod hm (by norm_num)]
  have h : (60 : Int) * (m / 60) + m % 60 = m := Int.ediv_add_emod m 60
  field_simp
  have hq : ((60 * (m / 60) + m % 60 : Int) : ℚ) = (m : ℚ) := by
    exact_mod_cast congrArg (fun z : Int => (z : ℚ)) h
  push_cast at hq
  linarith [hq]

theorem processUser_hoursToday (user : User) (uid today : String)
    (recs : List AttendanceRecord) :
    (processUser user uid today recs).2.totalHoursToday =
      jsHours (processUser user uid today recs).2.totalMinutesToday := rfl

theorem processUser_hoursAllTime (user : User) (uid today : String)
    (recs : List AttendanceRecord) :
    (processUser user uid today recs).2.totalHoursAllTime =
      jsHours (processUser user uid today recs).2.totalMinutesAllTime := rfl

/-! ## Claim theorems -/

/-- **C2** — For every Session with both `checkIn` and `checkOut` present,
the check-out is strictly later and `durationMinutes` is the rounded
minute difference (`round((out − in) in seconds / 60)`, see
`jsRoundMinutes_eq_round_seconds`), which is never negative; a duration is
stored iff both endpoints are present; and open sessions and orphan
check-outs contribute zero minutes to every total: each user's all-time
and today totals equal the duration sums of their sessions, which are
unchanged by dropping the sessions without both endpoints. -/
theorem claim_C2_duration_correctness (records : List AttendanceRecord)
    (users : List User) (today : String) :
    (∀ s ∈ (processAttendance records users today).processed,
      (s.duration.isSome ↔ (s.checkIn.isSome ∧ s.checkOut.isSome)) ∧
      (∀ ci co, s.checkIn = some ci → s.checkOut = some co →
        ∃ tIn tOut, ci.time = some tIn ∧ co.time = some tOut ∧ tIn < tOut ∧
          s.duration = some (jsRoundMinutes (tOut - tIn)) ∧
          0 ≤ jsRoundMinutes (tOut - tIn))) ∧
    (∀ q ∈ (processAttendance records users today).stats,
      q.2.totalMinutesAllTime =
        sessionsMinutes ((processAttendance records users today).processed.filter
          (fun s => s.userId = q.1)) ∧
      q.2.totalMinutesToday =
        sessionsMinutes (((processAttendance records users today).processed.filter
          (fun s => s.userId = q.1)).filter (fun s => s.date = today))) ∧
    (∀ l : List ProcessedAttendanceRecord,
      (∀ s ∈ l, s ∈ (processAttendance records users today).processed) →
      sessionsMinutes l =
        sessionsMinutes (l.filter
          (fun s => s.checkIn.isSome ∧ s.checkOut.isSome))) := by
  have hproc : (processAttendance records users today).processed =
      processedSessions records users today := rfl
  have hstats : (processAttendance records users today).stats =
      (perUserData records users today).map (fun p => (p.1, p.2.2)) := rfl
  refine ⟨?_, ?_, ?_⟩
  · intro s hs
    rw [hproc] at hs
    obtain ⟨user, uid, d, hday⟩ := processedSessions_mem hs
    obtain ⟨hiff, hdur, _⟩ := processDay_sessionOK hday
    refine ⟨hiff, ?_⟩
    intro ci co hci hco
    obtain ⟨tIn, tOut, h1, h2, h3, h4⟩ := hdur ci co hci hco
    exact ⟨tIn, tOut, h1, h2, h3, h4, jsRoundMinutes_nonneg (by omega)⟩
  · intro q hq
    rw [hstats, List.mem_map] at hq
    obtain ⟨p, hp, rfl⟩ := hq
    obtain ⟨-, user, -, hp2⟩ := mem_perUserData.mp hp
    rw [hproc, processedSessions_filter_uid hp]
    constructor
    · rw [hp2]
      exact processUser_allTime user p.1 today _
    · rw [hp2]
      exact processUser_today user p.1 today _
  · intro l hl
    induction l with
    | nil => rfl
    | cons s l ih =>
      have hs := hl s (List.mem_cons_self s l)
      rw [hproc] at hs
      obtain ⟨user, uid, d, hday⟩ := processedSessions_mem hs
      obtain ⟨hiff, -, -⟩ := processDay_sessionOK hday
      have ih' := ih (fun x hx => hl x (List.mem_cons_of_mem s hx))
      rw [List.filter_cons]
      by_cases hboth : s.checkIn.isSome ∧ s.checkOut.isSome
      · rw [if_pos (by simpa using hboth)]
        unfold sessionsMinutes at *
        simp only [List.map_cons, List.sum_cons]
        rw [ih']
      · rw [if_neg (by simpa using hboth)]
        have hnone : s.duration = none := by
          rcases hd : s.duration with _ | d0
          · rfl
          · exact absurd (hiff.mp (by simp [hd])) hboth
        unfold sessionsMinutes at *
        simp only [List.map_cons, List.sum_cons, hnone]
        simpa using ih'

unseal checkInLoop firstKeys List.mergeSort List.merge in
/-- **C6** — `avgHoursToday` is the mean of `totalHoursToday` over exactly
the stats entries with positive `totalMinutesToday`, rounded to one
decimal (`toFixed1`), and `0` when no entry is positive; and in the
scenario of a 3-user roster where only one user has sessions today
(120 minutes), it is 2.0 — averaged over 1 active user, not 3. -/
theorem claim_C6_avg_hours :
    (∀ (records : List AttendanceRecord) (users : List User) (today : String),
      (processAttendance records users today).dashboard.avgHoursToday =
       (if 0 < ((processAttendance records users today).stats.filter
           (fun q => 0 < q.2.totalMinutesToday)).length
        then toFixed1
           ((((processAttendance records users today).stats.filter
               (fun q => 0 < q.2.totalMinutesToday)).map
             (fun q => q.2.totalHoursToday)).sum /
             (((processAttendance records users today).stats.filter
               (fun q => 0 < q.2.totalMinutesToday)).length : ℚ))
        else 0)) ∧
    (processAttendance [ciMorning, coNoon] [aliceU, bobU, carolU]
        "3/1/2025").dashboard.avgHoursToday = 2 := by
  constructor
  swap
  · have havg2 : (processAttendance [ciMorning, coNoon] [aliceU, bobU, carolU]
        "3/1/2025").dashboard.avgHoursToday =
        (if 0 < (activeUsers [ciMorning, coNoon] [aliceU, bobU, carolU]
            "3/1/2025").length
         then toFixed1
            (((activeUsers [ciMorning, coNoon] [aliceU, bobU, carolU]
                "3/1/2025").map
                (fun p => (p.2.2.totalMinutesToday : ℚ) / 60)).sum /
              ((activeUsers [ciMorning, coNoon] [aliceU, bobU, carolU]
                "3/1/2025").length : ℚ))
         else 0) := rfl
    have hlen : (activeUsers [ciMorning, coNoon] [aliceU, bobU, carolU]
        "3/1/2025").length = 1 := by decide
    have hmins : (activeUsers [ciMorning, coNoon] [aliceU, bobU, carolU]
        "3/1/2025").map (fun p => p.2.2.totalMinutesToday) = [120] := by decide
    have hcomp : (activeUsers [ciMorning, coNoon] [aliceU, bobU, carolU]
        "3/1/2025").map (fun p => (p.2.2.totalMinutesToday : ℚ) / 60) =
        ((activeUsers [ciMorning, coNoon] [aliceU, bobU, carolU]
          "3/1/2025").map (fun p => p.2.2.totalMinutesToday)).map
            (fun (m : Int) => (m : ℚ) / 60) := by
      rw [List.map_map]
      rfl
    rw [havg2, hcomp, hmins, hlen]
    norm_num [toFixed1]
  intro records users today
  have hstats : (processAttendance records users today).stats =
      (perUserData records users today).map (fun p => (p.1, p.2.2)) := rfl
  have havg : (processAttendance records users today).dashboard.avgHoursToday =
      (if 0 < (activeUsers records users today).length
       then toFixed1
          (((activeUsers records users today).map
              (fun p => (p.2.2.totalMinutesToday : ℚ) / 60)).sum /
            ((activeUsers records users today).length : ℚ))
       else 0) := rfl
  have hfilter : (processAttendance records users today).stats.filter
      (fun q => 0 < q.2.totalMinutesToday) =
        (activeUsers records users today).map (fun p => (p.1, p.2.2)) := by
    rw [hstats]
    rw [List.filter_map]
    rfl
  rw [havg, hfilter]
  have hlen : ((activeUsers records users today).map
      (fun p => (p.1, p.2.2))).length = (activeUsers records users today).length :=
    List.length_map _ _
  rw [hlen]
  by_cases hpos : 0 < (activeUsers records users today).length
  · rw [if_pos hpos, if_pos hpos]
    congr 1
    congr 1
    rw [List.map_map]
    refine congrArg List.sum ?_
    refine List.map_congr_left ?_
    intro p hp
    have hp' : p ∈ perUserData records users today := by
      have : (activeUsers records users today).Sublist
          (perUserData records users today) := List.filter_sublist _
      exact this.mem hp
    obtain ⟨-, user, -, hp2⟩ := mem_perUserData.mp hp'
    have hnn : 0 ≤ p.2.2.totalMinutesToday := by
      rw [hp2]
      exact (processUser_minutes_nonneg user p.1 today _).1
    have : p.2.2.totalHoursToday = jsHours p.2.2.totalMinutesToday := by
      rw [hp2]
      rfl
    simp only [Function.comp]
    rw [this, jsHours_eq hnn]
  · rw [if_neg hpos, if_neg hpos]

/-- **C1** — On every (user, day) bucket (sorted ascending by timestamp by
the stable sort), the source's pairing is exactly the specification's
greedy earliest-available-match policy: each check-in, scanned in
timestamp order, takes the not-yet-consumed check-out with the earliest
timestamp strictly greater than its own (ties broken in favour of the one
first in the stable scan order, `specFindCheckOut`), the consumed
check-out is removed from further consideration, a check-in with no such
check-out yields a session with a null check-out, and the remaining
check-outs are emitted as orphans. -/
theorem claim_C1_greedy_pairing (user : User) (uid date : String)
    (bucket : List AttendanceRecord) (hv : AllValid bucket) :
    processDay user uid date bucket = specProcessDay user uid date bucket := by
  simp only [processDay, specProcessDay]
  rw [checkInLoop_eq_specPairLoop user uid date _ 0 hv.sort
    (jsSortByTime_pairwise hv)]

theorem claim_C1_greedy_pairing_witness :
    AllValid [coEvening, ciMorning] ∧
      processDay aliceU "u1" "3/1/2025" [coEvening, ciMorning] =
        specProcessDay aliceU "u1" "3/1/2025" [coEvening, ciMorning] :=
  ⟨by unfold AllValid; decide,
    claim_C1_greedy_pairing aliceU "u1" "3/1/2025" [coEvening, ciMorning]
      (by unfold AllValid; decide)⟩

unseal checkInLoop firstKeys List.mergeSort List.merge in
theorem sampleSession_mem :
    (mkEntry aliceU "u1" "3/1/2025" ciMorning (some coEvening)) ∈
      (processAttendance [ciMorning, coEvening] [aliceU] "3/1/2025").processed := by
  decide

theorem claim_C2_duration_correctness_witness :
    (mkEntry aliceU "u1" "3/1/2025" ciMorning (some coEvening)) ∈
      (processAttendance [ciMorning, coEvening] [aliceU] "3/1/2025").processed ∧
    ((mkEntry aliceU "u1" "3/1/2025" ciMorning (some coEvening)).duration.isSome ↔
      ((mkEntry aliceU "u1" "3/1/2025" ciMorning (some coEvening)).checkIn.isSome ∧
        (mkEntry aliceU "u1" "3/1/2025" ciMorning (some coEvening)).checkOut.isSome)) :=
  ⟨sampleSession_mem,
    ((claim_C2_duration_correctness [ciMorning, coEvening] [aliceU] "3/1/2025").1
      _ sampleSession_mem).1⟩

unseal checkInLoop firstKeys List.mergeSort List.merge in
/-- **C9** — Events on different local calendar dates are never paired:
both endpoints of any emitted session share one `toLocaleDateString`
value; and the midnight scenario (check-in 23:50 on `3/1/2025`, check-out
00:10 on `3/2/2025`) yields exactly an open session on the first day and
an orphan check-out on the next. -/
theorem claim_C9_midnight_split :
    (∀ records : List AttendanceRecord, ∀ users : List User, ∀ today : String,
      ∀ s ∈ (processAttendance records users today).processed,
      ∀ ci co, s.checkIn = some ci → s.checkOut = some co →
        recordDate ci = recordDate co) ∧
    (processAttendance [ciNight, coPastMidnight] [aliceU] "3/1/2025").processed =
      [mkEntry aliceU "u1" "3/1/2025" ciNight none,
       mkOrphan aliceU "u1" "3/2/2025" coPastMidnight] := by
  constructor
  · intro records users today s hs ci co hci hco
    obtain ⟨user, uid, d, hday⟩ := processedSessions_mem hs
    rcases processDay_mem hday with ⟨ci', hci', -, h1 | ⟨co', hco', -, heq⟩⟩ |
        ⟨co', -, -, heq⟩
    · subst h1
      rw [mkEntry_checkOut] at hco
      exact absurd hco (by simp)
    · subst heq
      rw [mkEntry_checkIn] at hci
      rw [mkEntry_checkOut] at hco
      cases hci
      cases hco
      have h1 : recordDate ci = d := by
        have := List.mem_filter.mp hci'
        simpa using this.2
      have h2 : recordDate co = d := by
        have := List.mem_filter.mp hco'
        simpa using this.2
      rw [h1, h2]
    · subst heq
      rw [mkOrphan_checkIn] at hci
      exact absurd hci (by simp)
  · decide

theorem claim_C9_midnight_split_witness :
    (mkEntry aliceU "u1" "3/1/2025" ciMorning (some coEvening)).checkIn =
        some ciMorning ∧
      recordDate ciMorning = recordDate coEvening :=
  ⟨rfl, claim_C9_midnight_split.1 [ciMorning, coEvening] [aliceU] "3/1/2025"
    _ sampleSession_mem ciMorning coEvening rfl rfl⟩

unseal checkInLoop firstKeys List.mergeSort List.merge in
/-- **C10** — A matched session whose check-out is strictly later by less
than 30 000 ms gets `durationMinutes = 0`; such sessions keep a non-null
`checkOut` (unlike open sessions) and add zero minutes to the totals, as
in the 25-second scenario. -/
theorem claim_C10_zero_duration :
    (∀ records : List AttendanceRecord, ∀ users : List User, ∀ today : String,
      ∀ s ∈ (processAttendance records users today).processed,
      ∀ ci co tIn tOut, s.checkIn = some ci → s.checkOut = some co →
        ci.time = some tIn → co.time = some tOut → tOut - tIn < 30000 →
        s.duration = some 0) ∧
    ((processAttendance [ciMorning, coQuick] [aliceU] "3/1/2025").processed =
      [mkEntry aliceU "u1" "3/1/2025" ciMorning (some coQuick)] ∧
     (mkEntry aliceU "u1" "3/1/2025" ciMorning (some coQuick)).checkOut =
        some coQuick ∧
     (mkEntry aliceU "u1" "3/1/2025" ciMorning (some coQuick)).duration = some 0 ∧
     (processAttendance [ciMorning, coQuick] [aliceU] "3/1/2025").stats.map
        (fun q => (q.1, q.2.totalMinutesToday, q.2.totalMinutesAllTime)) =
       [("u1", 0, 0)]) := by
  constructor
  · intro records users today s hs ci co tIn tOut hci hco htIn htOut hlt
    obtain ⟨user, uid, d, hday⟩ := processedSessions_mem hs
    obtain ⟨-, hdur, -⟩ := processDay_sessionOK hday
    obtain ⟨tIn', tOut', h1, h2, h3, h4⟩ := hdur ci co hci hco
    rw [htIn] at h1
    rw [htOut] at h2
    cases h1
    cases h2
    rw [h4]
    have hz : jsRoundMinutes (tOut - tIn) = 0 := by
      rw [jsRoundMinutes, Int.fdiv_eq_ediv _ (by norm_num)]
      exact Int.ediv_eq_zero_of_lt (by omega) (by omega)
    rw [hz]
  · refine ⟨by decide, rfl, by decide, by decide⟩

theorem claim_C10_zero_duration_witness :
    (mkEntry aliceU "u1" "3/1/2025" ciMorning (some coQuick)) ∈
        (processAttendance [ciMorning, coQuick] [aliceU] "3/1/2025").processed ∧
      (mkEntry aliceU "u1" "3/1/2025" ciMorning (some coQuick)).duration = some 0 := by
  have hmem : (mkEntry aliceU "u1" "3/1/2025" ciMorning (some coQuick)) ∈
      (processAttendance [ciMorning, coQuick] [aliceU] "3/1/2025").processed := by
    rw [claim_C10_zero_duration.2.1]
    exact List.mem_cons_self _ _
  exact ⟨hmem, claim_C10_zero_duration.1 [ciMorning, coQuick] [aliceU] "3/1/2025"
    _ hmem ciMorning coQuick 0 25000 rfl rfl rfl rfl (by norm_num)⟩

unseal checkInLoop firstKeys List.mergeSort List.merge in
/-- **C3 (counterexample)** — The effect reads `new Date()` internally at
line 177, so two runs over identical `(events, users)` are not identical:
at wall-clock date `3/1/2025` the dashboard counts one attendee for
"today", at `3/2/2025` it counts none. -/
theorem claim_C3_counterexample :
    attendanceEffect [ciMorning, coEvening] [aliceU] "3/1/2025"
        initialDashboardState ≠
      attendanceEffect [ciMorning, coEvening] [aliceU] "3/2/2025"
        initialDashboardState := by
  intro h
  have h2 := congrArg (fun st => st.dashboardStats.todayAttendance) h
  simp only [] at h2
  have e1 : (attendanceEffect [ciMorning, coEvening] [aliceU] "3/1/2025"
      initialDashboardState).dashboardStats.todayAttendance = 1 := by decide
  have e2 : (attendanceEffect [ciMorning, coEvening] [aliceU] "3/2/2025"
      initialDashboardState).dashboardStats.todayAttendance = 0 := by decide
  rw [e1, e2] at h2
  exact absurd h2 (by decide)

/-- **C3 (amended)** — The computation is deterministic in `(events,
users, today)` and independent of the previous component state: whenever
the guard lets it run, two invocations with the same inputs produce the
same outputs regardless of prior state.  The value `today`, however, is
read internally from the wall clock (line 177), not supplied by the
caller, so only runs on the same wall-clock date coincide. -/
theorem claim_C3_amended (records : List AttendanceRecord) (users : List User)
    (nowDate : String) (prev₁ prev₂ : DashboardState)
    (h1 : 0 < records.length) (h2 : 0 < users.length) :
    attendanceEffect records users nowDate prev₁ =
      attendanceEffect records users nowDate prev₂ := by
  unfold attendanceEffect
  rw [if_pos ⟨h1, h2⟩, if_pos ⟨h1, h2⟩]

theorem claim_C3_amended_witness :
    0 < ([ciMorning] : List AttendanceRecord).length ∧
      0 < ([aliceU] : List User).length ∧
      attendanceEffect [ciMorning] [aliceU] "3/1/2025" initialDashboardState =
        attendanceEffect [ciMorning] [aliceU] "3/1/2025" staleState :=
  ⟨by decide, by decide,
    claim_C3_amended [ciMorning] [aliceU] "3/1/2025" initialDashboardState
      staleState (by decide) (by decide)⟩

unseal checkInLoop firstKeys List.mergeSort List.merge in
/-- **C4 (counterexample)** — Roster user `u1` has no punch events while
`u2` has one; `userStats` then contains only a `u2` entry and no (zeroed)
`u1` entry, contradicting the claim that roster members without sessions
are zeroed rather than omitted. -/
theorem claim_C4_counterexample :
    ((processAttendance [ciBob] [aliceU, bobU] "3/1/2025").stats.map
        Prod.fst = ["u2"]) ∧
      ¬ ∃ st, ("u1", st) ∈
        (processAttendance [ciBob] [aliceU, bobU] "3/1/2025").stats := by
  have hkeys : (processAttendance [ciBob] [aliceU, bobU] "3/1/2025").stats.map
      Prod.fst = ["u2"] := by decide
  refine ⟨hkeys, ?_⟩
  rintro ⟨st, hst⟩
  have hm : "u1" ∈ (processAttendance [ciBob] [aliceU, bobU] "3/1/2025").stats.map
      Prod.fst := List.mem_map_of_mem Prod.fst hst
  rw [hkeys] at hm
  simp at hm

/-- **C4 (amended)** — `userStats` has an entry for a userId iff that user
has at least one punch event and appears on the roster; roster members
without events are omitted (not zeroed), and events of unknown users
produce no entry. -/
theorem claim_C4_amended (records : List AttendanceRecord) (users : List User)
    (today : String) (uid : String) :
    (∃ st, (uid, st) ∈ (processAttendance records users today).stats) ↔
      ((∃ r ∈ records, r.userId = uid) ∧ (∃ user ∈ users, user.id = uid)) := by
  have hstats : (processAttendance records users today).stats =
      (perUserData records users today).map (fun p => (p.1, p.2.2)) := rfl
  constructor
  · rintro ⟨st, hst⟩
    rw [hstats, List.mem_map] at hst
    obtain ⟨p, hp, heq⟩ := hst
    have hp1 : p.1 = uid := congrArg Prod.fst heq
    obtain ⟨hkey, user, hfind, -⟩ := mem_perUserData.mp hp
    rw [hp1] at hkey hfind
    constructor
    · have hmem := mem_firstKeys.mp hkey
      rw [List.mem_map] at hmem
      obtain ⟨r, hr, hru⟩ := hmem
      exact ⟨r, hr, hru⟩
    · have hmem := List.mem_of_find?_eq_some hfind
      have hpred := List.find?_some hfind
      exact ⟨user, hmem, by simpa using hpred⟩
  · rintro ⟨⟨r, hr, hru⟩, ⟨user, huser, hid⟩⟩
    have hkey : uid ∈ firstKeys (records.map (fun x => x.userId)) := by
      rw [mem_firstKeys, List.mem_map]
      exact ⟨r, hr, hru⟩
    have hsome : (users.find? (fun x => x.id == uid)).isSome := by
      rw [List.find?_isSome]
      exact ⟨user, huser, by simpa using hid⟩
    obtain ⟨u', hu'⟩ := Option.isSome_iff_exists.mp hsome
    refine ⟨(processUser u' uid today
      (records.filter (fun x => x.userId = uid))).2, ?_⟩
    rw [hstats, List.mem_map]
    exact ⟨(uid, processUser u' uid today
        (records.filter (fun x => x.userId = uid))),
      mem_perUserData.mpr ⟨hkey, u', hu', rfl⟩, rfl⟩

unseal checkInLoop firstKeys List.mergeSort List.merge in
/-- **C7 (counterexample)** — An event with an unparseable timestamp does
not fail the computation: it is silently bucketed under the date string
`"Invalid Date"` and emitted as an open session, and the stats map still
gets an entry for its user — results, not an error. -/
theorem claim_C7_counterexample :
    (processAttendance [badTsRecord] [aliceU] "3/1/2025").processed =
      [mkEntry aliceU "u1" "Invalid Date" badTsRecord none] ∧
    (processAttendance [badTsRecord] [aliceU] "3/1/2025").stats.map
      Prod.fst = ["u1"] :=
  ⟨by decide, by decide⟩

/-- **C7 (amended)** — Unparseable timestamps are neither detected nor
reported: the computation proceeds and produces results.  Such events are
silently included — grouped under the `"Invalid Date"` bucket — and since
every `NaN` comparison is false they never pair: each of their sessions
has a single endpoint and no duration. -/
theorem claim_C7_amended (records : List AttendanceRecord) (users : List User)
    (today : String) (hinv : ∀ r ∈ records, r.time = none) :
    ∀ s ∈ (processAttendance records users today).processed,
      s.date = "Invalid Date" ∧ s.duration = none ∧
        ¬ (s.checkIn.isSome ∧ s.checkOut.isSome) := by
  intro s hs
  obtain ⟨user, uid, d, hday⟩ := processedSessions_mem hs
  have hbucket : ∀ x ∈ (records.filter (fun x => x.userId = uid)).filter
      (fun x => recordDate x = d), x.time = none ∧ recordDate x = d := by
    intro x hx
    rw [List.mem_filter] at hx
    exact ⟨hinv x (List.mem_of_mem_filter hx.1), by simpa using hx.2⟩
  have hd : ∀ x ∈ (records.filter (fun x => x.userId = uid)).filter
      (fun x => recordDate x = d), d = "Invalid Date" := by
    intro x hx
    obtain ⟨hxt, hxd⟩ := hbucket x hx
    rw [← hxd, recordDate, hxt]
  rcases processDay_mem hday with ⟨ci, hci, -, h1 | ⟨co, hco, hm, heq⟩⟩ |
      ⟨co, hco, -, heq⟩
  · subst h1
    exact ⟨hd ci hci, rfl, by simp [mkEntry]⟩
  · exfalso
    have := @checkOutMatch_none ci.time co (Or.inl (hbucket ci hci).1)
    rw [this] at hm
    exact Bool.false_ne_true hm
  · subst heq
    exact ⟨hd co hco, rfl, by simp [mkOrphan]⟩

theorem claim_C7_amended_witness :
    (∀ r ∈ [badTsRecord], r.time = none) ∧
      ((mkEntry aliceU "u1" "Invalid Date" badTsRecord none).date =
          "Invalid Date" ∧
        (mkEntry aliceU "u1" "Invalid Date" badTsRecord none).duration = none ∧
        ¬ ((mkEntry aliceU "u1" "Invalid Date" badTsRecord none).checkIn.isSome ∧
          (mkEntry aliceU "u1" "Invalid Date" badTsRecord none).checkOut.isSome)) := by
  have hmem : (mkEntry aliceU "u1" "Invalid Date" badTsRecord none) ∈
      (processAttendance [badTsRecord] [aliceU] "3/1/2025").processed := by
    rw [claim_C7_counterexample.1]
    exact List.mem_cons_self _ _
  exact ⟨by decide,
    claim_C7_amended [badTsRecord] [aliceU] "3/1/2025" (by decide) _ hmem⟩

/-- **C8 (counterexample)** — With zero events the effect does not return
empty/zeroed outputs: the guard at line 152 skips the whole recomputation,
so a non-empty previous state survives unchanged (`totalUsers` stays 99
instead of being zeroed). -/
theorem claim_C8_counterexample :
    attendanceEffect [] [aliceU] "3/1/2025" staleState = staleState ∧
      (attendanceEffect [] [aliceU] "3/1/2025"
        staleState).dashboardStats.totalUsers = 99 := by
  have h : attendanceEffect [] [aliceU] "3/1/2025" staleState = staleState := by
    unfold attendanceEffect
    rw [if_neg (by simp)]
  exact ⟨h, by rw [h]; rfl⟩

/-- **C8 (amended)** — Zero events and/or zero users is not an error, but
the computation is skipped entirely: the previous outputs are left
unchanged (only the initial mount state happens to be empty/zeroed). -/
theorem claim_C8_amended (records : List AttendanceRecord) (users : List User)
    (nowDate : String) (prev : DashboardState)
    (h : records.length = 0 ∨ users.length = 0) :
    attendanceEffect records users nowDate prev = prev := by
  unfold attendanceEffect
  rw [if_neg]
  rcases h with h | h <;> simp [h]

theorem claim_C8_amended_witness :
    (([] : List AttendanceRecord).length = 0 ∨ ([aliceU] : List User).length = 0) ∧
      attendanceEffect [] [aliceU] "3/1/2025" staleState = staleState :=
  ⟨Or.inl rfl, claim_C8_amended [] [aliceU] "3/1/2025" staleState (Or.inl rfl)⟩

/-! ## Conservation of events (claim C5) -/

theorem flatten_perm_pointwise {γ α : Type} (l : List γ) (f g : γ → List α)
    (h : ∀ x ∈ l, (f x).Perm (g x)) :
    ((l.map f).flatten).Perm ((l.map g).flatten) := by
  induction l with
  | nil => rfl
  | cons x l ih =>
    rw [List.map_cons, List.map_cons, List.flatten_cons, List.flatten_cons]
    exact (h x (List.mem_cons_self x l)).append
      (ih (fun y hy => h y (List.mem_cons_of_mem x hy)))

/-- Check-out conservation for one day bucket (no hypotheses needed). -/
theorem processDay_checkOuts_perm (user : User) (uid date : String)
    (bucket : List AttendanceRecord) :
    ((processDay user uid date bucket).filterMap (fun s => s.checkOut)).Perm
      (bucket.filter (fun r => r.type = "check-out")) := by
  unfold processDay
  rw [List.filterMap_append]
  have horphan : ((( (checkInLoop user uid date (jsSortByTime bucket) 0).2.filter
      (fun r => r.type = "check-out")).map (mkOrphan user uid date)).filterMap
        (fun s => s.checkOut)) =
      (checkInLoop user uid date (jsSortByTime bucket) 0).2.filter
        (fun r => r.type = "check-out") := by
    rw [List.filterMap_map]
    exact List.filterMap_some _
  rw [horphan]
  exact (checkInLoop_checkOuts_perm user uid date (jsSortByTime bucket) 0).trans
    ((jsSortByTime_perm bucket).filter _)

/-- Check-in conservation for one day bucket, which must be homogeneous:
either all timestamps parse or none do. -/
theorem processDay_checkIns_perm (user : User) (uid date : String)
    (bucket : List AttendanceRecord)
    (hok : AllValid bucket ∨ (∀ r ∈ bucket, r.time = none)) :
    ((processDay user uid date bucket).filterMap (fun s => s.checkIn)).Perm
      (bucket.filter (fun r => r.type = "check-in")) := by
  unfold processDay
  rw [List.filterMap_append]
  have horphan : ((( (checkInLoop user uid date (jsSortByTime bucket) 0).2.filter
      (fun r => r.type = "check-out")).map (mkOrphan user uid date)).filterMap
        (fun s => s.checkIn)) = [] := by
    rw [List.filterMap_map]
    exact List.filterMap_eq_nil_iff.mpr (fun a _ => rfl)
  rw [horphan, List.append_nil]
  rcases hok with hv | hinv
  · rw [checkInLoop_checkIns user uid date (jsSortByTime bucket) 0 hv.sort
      (jsSortByTime_pairwise hv)]
    rw [List.drop_zero]
    exact (jsSortByTime_perm bucket).filter _
  · have hinv' : ∀ r ∈ jsSortByTime bucket, r.time = none :=
      fun r hr => hinv r ((jsSortByTime_perm bucket).mem_iff.mp hr)
    rw [(checkInLoop_all_invalid user uid date (jsSortByTime bucket) 0 hinv').1]
    rw [List.drop_zero]
    have heq : ((((jsSortByTime bucket).filter (fun r => r.type = "check-in")).map
          (fun r => mkEntry user uid date r none)).filterMap
            (fun s => s.checkIn)) =
        (jsSortByTime bucket).filter (fun r => r.type = "check-in") := by
      rw [List.filterMap_map]
      exact List.filterMap_some _
    rw [heq]
    exact (jsSortByTime_perm bucket).filter _

/-- A per-day bucket of a well-formed record list is homogeneous. -/
theorem bucket_homogeneous {recs : List AttendanceRecord}
    (hwf : WellFormedDates recs) (d : String) :
    AllValid (recs.filter (fun x => recordDate x = d)) ∨
      (∀ r ∈ recs.filter (fun x => recordDate x = d), r.time = none) := by
  by_cases hd : d = "Invalid Date"
  · right
    intro r hr
    rw [List.mem_filter] at hr
    rcases ht : r.time with _ | v
    · rfl
    · exfalso
      have hne := hwf r hr.1 (by simp [ht])
      have : recordDate r = r.localeDate := by rw [recordDate, ht]
      have hday : recordDate r = d := by simpa using hr.2
      rw [this] at hday
      exact hne (hday.trans hd)
  · left
    intro r hr
    rw [List.mem_filter] at hr
    rcases ht : r.time with _ | v
    · exfalso
      have : recordDate r = "Invalid Date" := by rw [recordDate, ht]
      have hday : recordDate r = d := by simpa using hr.2
      exact hd (hday.symm.trans this)
    · simp

/-- A list is partitioned by grouping on a key function, provided the key
list is duplicate-free and covers every element. -/
theorem groupBy_partition {α : Type} (f : α → String) :
    ∀ (ks : List String) (l : List α), ks.Nodup → (∀ x ∈ l, f x ∈ ks) →
      ((ks.map (fun k => l.filter (fun x => f x = k))).flatten).Perm l := by
  intro ks
  induction ks with
  | nil =>
    intro l _ hcover
    have : l = [] := by
      rcases l with _ | ⟨x, l⟩
      · rfl
      · exact absurd (hcover x (List.mem_cons_self x l)) (by simp)
    rw [this]
    rfl
  | cons k ks ih =>
    intro l hnodup hcover
    rw [List.map_cons, List.flatten_cons]
    rw [List.nodup_cons] at hnodup
    have htail : ∀ k' ∈ ks, l.filter (fun x => f x = k') =
        (l.filter (fun x => ¬ f x = k)).filter (fun x => f x = k') := by
      intro k' hk'
      rw [List.filter_filter]
      refine List.filter_congr ?_
      intro x hx
      by_cases h1 : f x = k'
      · have h3 : ¬ k' = k := fun hkk => hnodup.1 (hkk ▸ hk')
        simp [h1, h3]
      · simp [h1]
    have hmapeq : ks.map (fun k' => l.filter (fun x => f x = k')) =
        ks.map (fun k' => (l.filter (fun x => ¬ f x = k)).filter
          (fun x => f x = k')) := List.map_congr_left htail
    rw [hmapeq]
    have hihl := ih (l.filter (fun x => ¬ f x = k)) hnodup.2 ?_
    · refine (hihl.append_left (l.filter (fun x => f x = k))).trans ?_
      have := List.filter_append_perm (fun x => decide (f x = k)) l
      refine List.Perm.trans ?_ this
      refine List.Perm.append (List.Perm.refl _) ?_
      refine List.Perm.of_eq (List.filter_congr ?_)
      intro x hx
      rw [decide_not]
    · intro x hx
      rw [List.mem_filter] at hx
      have := hcover x hx.1
      rw [List.mem_cons] at this
      rcases this with h1 | h1
      · exact absurd h1 (by simpa using hx.2)
      · exact h1

/-- Per-user conservation of check-outs. -/
theorem processUser_checkOuts_perm (user : User) (uid today : String)
    (recs : List AttendanceRecord) :
    ((processUser user uid today recs).1.filterMap (fun s => s.checkOut)).Perm
      (recs.filter (fun r => r.type = "check-out")) := by
  unfold processUser
  simp only [List.filterMap_flatten, List.map_map]
  have hpt := flatten_perm_pointwise (firstKeys (recs.map recordDate))
    (fun d => (processDay user uid d
      (recs.filter (fun x => recordDate x = d))).filterMap (fun s => s.checkOut))
    (fun d => (recs.filter (fun r => r.type = "check-out")).filter
      (fun x => recordDate x = d))
    (fun d _ => by
      refine (processDay_checkOuts_perm user uid d _).trans ?_
      simp only [List.filter_filter]
      exact List.Perm.of_eq (List.filter_congr (fun x _ => Bool.and_comm _ _)))
  refine hpt.trans ?_
  refine groupBy_partition (fun r => recordDate r) _ _ (firstKeys_nodup _) ?_
  intro x hx
  rw [mem_firstKeys, List.mem_map]
  exact ⟨x, List.mem_of_mem_filter hx, rfl⟩

/-- Per-user conservation of check-ins (needs well-formed dates so that
every bucket is homogeneous). -/
theorem processUser_checkIns_perm (user : User) (uid today : String)
    (recs : List AttendanceRecord) (hwf : WellFormedDates recs) :
    ((processUser user uid today recs).1.filterMap (fun s => s.checkIn)).Perm
      (recs.filter (fun r => r.type = "check-in")) := by
  unfold processUser
  simp only [List.filterMap_flatten, List.map_map]
  have hpt := flatten_perm_pointwise (firstKeys (recs.map recordDate))
    (fun d => (processDay user uid d
      (recs.filter (fun x => recordDate x = d))).filterMap (fun s => s.checkIn))
    (fun d => (recs.filter (fun r => r.type = "check-in")).filter
      (fun x => recordDate x = d))
    (fun d _ => by
      refine (processDay_checkIns_perm user uid d _
        (bucket_homogeneous hwf d)).trans ?_
      simp only [List.filter_filter]
      exact List.Perm.of_eq (List.filter_congr (fun x _ => Bool.and_comm _ _)))
  refine hpt.trans ?_
  refine groupBy_partition (fun r => recordDate r) _ _ (firstKeys_nodup _) ?_
  intro x hx
  rw [mem_firstKeys, List.mem_map]
  exact ⟨x, List.mem_of_mem_filter hx, rfl⟩

/-- Lifting per-user block permutations to the whole session list. -/
theorem perUser_blocks_perm (records : List AttendanceRecord)
    (users : List User) (today : String)
    (sel : ProcessedAttendanceRecord → Option AttendanceRecord)
    (q : AttendanceRecord → Bool)
    (hblk : ∀ p ∈ perUserData records users today,
      (p.2.1.filterMap sel).Perm
        ((records.filter (fun r => r.userId = p.1)).filter q)) :
    ((processedSessions records users today).filterMap sel).Perm
      (records.filter (fun r => q r && rosterHas users r.userId)) := by
  unfold processedSessions
  simp only [List.filterMap_flatten, List.map_map]
  have hpt := flatten_perm_pointwise (perUserData records users today)
    (fun p => p.2.1.filterMap sel)
    (fun p => (records.filter (fun r => r.userId = p.1)).filter q) hblk
  refine List.Perm.trans (List.Perm.of_eq rfl) (hpt.trans ?_)
  have hmap : (perUserData records users today).map
      (fun p => (records.filter (fun r => r.userId = p.1)).filter q) =
      ((perUserData records users today).map Prod.fst).map
        (fun uid => (records.filter (fun r => r.userId = uid)).filter q) := by
    rw [List.map_map]
    rfl
  rw [hmap, perUserData_keys]
  have hbucket : ∀ uid ∈ (firstKeys (records.map (fun x => x.userId))).filter
      (fun uid => rosterHas users uid),
      (records.filter (fun r => r.userId = uid)).filter q =
        (records.filter (fun r => q r && rosterHas users r.userId)).filter
          (fun x => x.userId = uid) := by
    intro uid huid
    have hroster : rosterHas users uid = true := by
      have := List.mem_filter.mp huid
      exact this.2
    rw [List.filter_filter, List.filter_filter]
    refine List.filter_congr ?_
    intro r hr
    by_cases he : r.userId = uid
    · simp [he, hroster]
    · simp [he]
  rw [List.map_congr_left hbucket]
  refine groupBy_partition (fun (r : AttendanceRecord) => r.userId) _ _
    ((firstKeys_nodup _).filter _) ?_
  intro x hx
  rw [List.mem_filter] at hx
  rw [List.mem_filter]
  constructor
  · rw [mem_firstKeys, List.mem_map]
    exact ⟨x, hx.1, rfl⟩
  · have := hx.2
    simp only [Bool.and_eq_true] at this
    exact this.2

theorem length_filterMap_eq_length_filter_isSome {α β : Type}
    (f : α → Option β) (l : List α) :
    (l.filterMap f).length = (l.filter (fun a => (f a).isSome)).length := by
  induction l with
  | nil => rfl
  | cons a l ih =>
    rw [List.filterMap_cons, List.filter_cons]
    rcases hf : f a with _ | b <;> simp [hf, ih]

unseal checkInLoop firstKeys List.mergeSort List.merge in
/-- **C5 (counterexample)** — A check-in whose `userId` is not on the
roster is dropped wholesale (line 181 `if (!user) return`): with one
check-in event by user `"ghost"` and a roster containing only `u1`, no
session at all is produced, so the number of sessions with a check-in (0)
differs from the number of check-in events (1). -/
theorem claim_C5_counterexample :
    (processAttendance [ghostCi] [aliceU] "3/1/2025").processed = [] ∧
      ([ghostCi].filter (fun r => r.type = "check-in")).length = 1 :=
  ⟨by decide, by decide⟩

/-- **C5 (amended)** — Restricted to events whose `userId` is on the
roster (and under the standing invariant that only unparseable timestamps
render as `"Invalid Date"`): the check-ins of the produced sessions are a
permutation of the roster users' check-in events, the check-outs of the
produced sessions are a permutation of the roster users' check-out events
(each check-out appears in exactly one session), the number of sessions
having a check-in equals the number of such check-in events, and — when
the input events are pairwise distinct — no two sessions share a check-in
or a check-out reference. -/
theorem claim_C5_amended (records : List AttendanceRecord)
    (users : List User) (today : String) (hwf : WellFormedDates records) :
    ((processAttendance records users today).processed.filterMap
        (fun s => s.checkIn)).Perm
      (records.filter (fun r =>
        decide (r.type = "check-in") && rosterHas users r.userId)) ∧
    ((processAttendance records users today).processed.filterMap
        (fun s => s.checkOut)).Perm
      (records.filter (fun r =>
        decide (r.type = "check-out") && rosterHas users r.userId)) ∧
    ((processAttendance records users today).processed.filter
        (fun s => s.checkIn.isSome)).length =
      (records.filter (fun r =>
        decide (r.type = "check-in") && rosterHas users r.userId)).length ∧
    (records.Nodup →
      ((processAttendance records users today).processed.filterMap
        (fun s => s.checkIn)).Nodup ∧
      ((processAttendance records users today).processed.filterMap
        (fun s => s.checkOut)).Nodup) := by
  have hproc : (processAttendance records users today).processed =
      processedSessions records users today := rfl
  have hin : ((processedSessions records users today).filterMap
      (fun s => s.checkIn)).Perm
      (records.filter (fun r =>
        decide (r.type = "check-in") && rosterHas users r.userId)) := by
    refine perUser_blocks_perm records users today _ _ ?_
    intro p hp
    obtain ⟨-, user, -, hp2⟩ := mem_perUserData.mp hp
    rw [hp2]
    refine processUser_checkIns_perm user p.1 today _ ?_
    intro r hr
    exact hwf r (List.mem_of_mem_filter hr)
  have hout : ((processedSessions records users today).filterMap
      (fun s => s.checkOut)).Perm
      (records.filter (fun r =>
        decide (r.type = "check-out") && rosterHas users r.userId)) := by
    refine perUser_blocks_perm records users today _ _ ?_
    intro p hp
    obtain ⟨-, user, -, hp2⟩ := mem_perUserData.mp hp
    rw [hp2]
    exact processUser_checkOuts_perm user p.1 today _
  rw [hproc]
  refine ⟨hin, hout, ?_, ?_⟩
  · rw [← hin.length_eq]
    rw [length_filterMap_eq_length_filter_isSome]
  · intro hnodup
    exact ⟨(hin.symm).nodup (hnodup.filter _), (hout.symm).nodup (hnodup.filter _)⟩

theorem claim_C5_amended_witness :
    WellFormedDates [ciMorning, coEvening, ghostCi] ∧
      ((processAttendance [ciMorning, coEvening, ghostCi] [aliceU]
          "3/1/2025").processed.filterMap (fun s => s.checkIn)).Perm
        ([ciMorning, coEvening, ghostCi].filter (fun r =>
          decide (r.type = "check-in") && rosterHas [aliceU] r.userId)) :=
  ⟨by unfold WellFormedDates; decide,
    (claim_C5_amended [ciMorning, coEvening, ghostCi] [aliceU] "3/1/2025"
      (by unfold WellFormedDates; decide)).1⟩

end GeoAttendance
